import Mathlib

/-!
Verification of the positive-prompt extraction core of the
`comfyui_prompt_extractor` repository.

The repository contains two families of extractors:

* the CLI versions in `comfyprompt_extractor.py` (shared verbatim by
  `comfy_drop_ui.py`), which call `.strip()` / `.lower()` directly on the
  first widget value and therefore raise `AttributeError` on non-string
  values — these are embedded as `Except Unit`-valued functions, where
  `.error ()` models the Python exception, and the evaluation order of the
  embedded boolean computations mirrors Python's short-circuit order;
* the total versions in `unified_extractor_ui.py`, which guard every string
  operation with `isinstance` checks — these are embedded as total functions.

External collaborators (`json.loads`, `json.dumps`, `bytes.decode`) are taken
as explicit oracle parameters of the embedded functions, exactly where the
Python code calls into the standard library: `json.loads` is modelled as
`String → Option JVal`, where `none` models `json.JSONDecodeError`.

Python strings are modelled as Lean `String` with hand-rolled, executable
versions of the string methods the code uses (`strip`, `lower`, `in`,
`startswith`, `split`, `rstrip`, slicing).  ASCII casing only, as in the
repository's data.  Python's `str()` is modelled by `pyStr`, with a
repr-style rendering of nested lists/dicts (string escaping inside `repr`
is not modelled; no claim depends on it).
-/

/-! ### Python string primitives -/

/-- Characters Python's `str.strip()` removes. -/
def isPySpace (c : Char) : Bool :=
  c = ' ' || c = '\t' || c = '\n' || c = '\x0d' || c = '\x0b' || c = '\x0c'

/-- ASCII lower-casing of one character, as `str.lower()` does on ASCII. -/
def lowChar (c : Char) : Char :=
  if 'A' ≤ c && c ≤ 'Z' then Char.ofNat (c.toNat + 32) else c

/-- Tests that `l` starts with pattern `pat` (list form of `str.startswith`). -/
def listStarts : List Char → List Char → Bool
  | [], _ => true
  | _ :: _, [] => false
  | a :: as, b :: bs => a = b && listStarts as bs

/-- Tests that `pat` occurs somewhere in `l` (list form of Python's `in` on strings). -/
def hasSub (pat : List Char) : List Char → Bool
  | [] => listStarts pat []
  | c :: rest => listStarts pat (c :: rest) || hasSub pat rest

/-- Python `needle in hay` for strings. -/
def pyIn (needle hay : String) : Bool := hasSub needle.data hay.data

/-- Python `s.startswith(pat)`. -/
def pyStartsWith (s pat : String) : Bool := listStarts pat.data s.data

/-- Python `s.strip()`. -/
def pyStrip (s : String) : String :=
  String.mk (((s.data.dropWhile isPySpace).reverse.dropWhile isPySpace).reverse)

/-- Python `s.rstrip()`. -/
def pyRStrip (s : String) : String :=
  String.mk ((s.data.reverse.dropWhile isPySpace).reverse)

/-- Python `s.lower()` (ASCII). -/
def pyLower (s : String) : String := String.mk (s.data.map lowChar)

/-- Python `s.lower()[:50]`, the 50-character negative-word window. -/
def pyHead50Lower (s : String) : String := String.mk ((s.data.map lowChar).take 50)

/-- Split a character list at every occurrence of `c` (Python `str.split`). -/
def splitChar (c : Char) : List Char → List (List Char)
  | [] => [[]]
  | x :: r =>
    if x = c then [] :: splitChar c r
    else
      match splitChar c r with
      | h :: t => (x :: h) :: t
      | [] => [[x]]

/-- Python `s.split(chr(10))`. -/
def pySplitNl (s : String) : List String := (splitChar '\n' s.data).map String.mk

/-- Everything after the first colon (`line.split(":", 1)[1]` when a colon exists). -/
def afterColonL : List Char → List Char
  | [] => []
  | c :: r => if c = ':' then r else afterColonL r

/-- Everything after the first colon of a string. -/
def pyAfterColon (s : String) : String := String.mk (afterColonL s.data)

/-- Python `sep.join(parts)`. -/
def joinSep (sep : String) : List String → String
  | [] => ""
  | [s] => s
  | s :: rest => s ++ sep ++ joinSep sep rest

/-! ### JSON values and Python stringification -/

/-- Decoded JSON values, as produced by `json.loads`.  Numbers are modelled
as integers (the repository's workflows carry integer ids and integer/float
widget scalars; no claim depends on float formatting). -/
inductive JVal where
  | jnull
  | jbool (b : Bool)
  | jnum (n : Int)
  | jstr (s : String)
  | jarr (xs : List JVal)
  | jobj (kvs : List (String × JVal))

mutual

/-- Decidable equality on decoded JSON values (Python `==` on such values). -/
def JVal.decEq : (a b : JVal) → Decidable (a = b)
  | .jnull, .jnull => .isTrue rfl
  | .jbool a, .jbool b =>
    match Bool.decEq a b with
    | .isTrue h => .isTrue (by rw [h])
    | .isFalse h => .isFalse (fun e => h (by cases e; rfl))
  | .jnum a, .jnum b =>
    match Int.instDecidableEq a b with
    | .isTrue h => .isTrue (by rw [h])
    | .isFalse h => .isFalse (fun e => h (by cases e; rfl))
  | .jstr a, .jstr b =>
    match String.decEq a b with
    | .isTrue h => .isTrue (by rw [h])
    | .isFalse h => .isFalse (fun e => h (by cases e; rfl))
  | .jarr xs, .jarr ys =>
    match JVal.decEqList xs ys with
    | .isTrue h => .isTrue (by rw [h])
    | .isFalse h => .isFalse (fun e => h (by cases e; rfl))
  | .jobj xs, .jobj ys =>
    match JVal.decEqObj xs ys with
    | .isTrue h => .isTrue (by rw [h])
    | .isFalse h => .isFalse (fun e => h (by cases e; rfl))
  | .jnull, .jbool _ => .isFalse (fun h => JVal.noConfusion h)
  | .jnull, .jnum _ => .isFalse (fun h => JVal.noConfusion h)
  | .jnull, .jstr _ => .isFalse (fun h => JVal.noConfusion h)
  | .jnull, .jarr _ => .isFalse (fun h => JVal.noConfusion h)
  | .jnull, .jobj _ => .isFalse (fun h => JVal.noConfusion h)
  | .jbool _, .jnull => .isFalse (fun h => JVal.noConfusion h)
  | .jbool _, .jnum _ => .isFalse (fun h => JVal.noConfusion h)
  | .jbool _, .jstr _ => .isFalse (fun h => JVal.noConfusion h)
  | .jbool _, .jarr _ => .isFalse (fun h => JVal.noConfusion h)
  | .jbool _, .jobj _ => .isFalse (fun h => JVal.noConfusion h)
  | .jnum _, .jnull => .isFalse (fun h => JVal.noConfusion h)
  | .jnum _, .jbool _ => .isFalse (fun h => JVal.noConfusion h)
  | .jnum _, .jstr _ => .isFalse (fun h => JVal.noConfusion h)
  | .jnum _, .jarr _ => .isFalse (fun h => JVal.noConfusion h)
  | .jnum _, .jobj _ => .isFalse (fun h => JVal.noConfusion h)
  | .jstr _, .jnull => .isFalse (fun h => JVal.noConfusion h)
  | .jstr _, .jbool _ => .isFalse (fun h => JVal.noConfusion h)
  | .jstr _, .jnum _ => .isFalse (fun h => JVal.noConfusion h)
  | .jstr _, .jarr _ => .isFalse (fun h => JVal.noConfusion h)
  | .jstr _, .jobj _ => .isFalse (fun h => JVal.noConfusion h)
  | .jarr _, .jnull => .isFalse (fun h => JVal.noConfusion h)
  | .jarr _, .jbool _ => .isFalse (fun h => JVal.noConfusion h)
  | .jarr _, .jnum _ => .isFalse (fun h => JVal.noConfusion h)
  | .jarr _, .jstr _ => .isFalse (fun h => JVal.noConfusion h)
  | .jarr _, .jobj _ => .isFalse (fun h => JVal.noConfusion h)
  | .jobj _, .jnull => .isFalse (fun h => JVal.noConfusion h)
  | .jobj _, .jbool _ => .isFalse (fun h => JVal.noConfusion h)
  | .jobj _, .jnum _ => .isFalse (fun h => JVal.noConfusion h)
  | .jobj _, .jstr _ => .isFalse (fun h => JVal.noConfusion h)
  | .jobj _, .jarr _ => .isFalse (fun h => JVal.noConfusion h)

/-- Decidable equality on lists of JSON values. -/
def JVal.decEqList : (xs ys : List JVal) → Decidable (xs = ys)
  | [], [] => .isTrue rfl
  | [], _ :: _ => .isFalse (fun h => List.noConfusion h)
  | _ :: _, [] => .isFalse (fun h => List.noConfusion h)
  | x :: xs, y :: ys =>
    match JVal.decEq x y, JVal.decEqList xs ys with
    | .isTrue h1, .isTrue h2 => .isTrue (by rw [h1, h2])
    | .isFalse h1, _ => .isFalse (fun e => h1 (by cases e; rfl))
    | _, .isFalse h2 => .isFalse (fun e => h2 (by cases e; rfl))

/-- Decidable equality on JSON object entry lists. -/
def JVal.decEqObj : (xs ys : List (String × JVal)) → Decidable (xs = ys)
  | [], [] => .isTrue rfl
  | [], _ :: _ => .isFalse (fun h => List.noConfusion h)
  | _ :: _, [] => .isFalse (fun h => List.noConfusion h)
  | (k1, v1) :: xs, (k2, v2) :: ys =>
    match String.decEq k1 k2, JVal.decEq v1 v2, JVal.decEqObj xs ys with
    | .isTrue hk, .isTrue h1, .isTrue h2 => .isTrue (by rw [hk, h1, h2])
    | .isFalse hk, _, _ => .isFalse (fun e => hk (by cases e; rfl))
    | _, .isFalse h1, _ => .isFalse (fun e => h1 (by cases e; rfl))
    | _, _, .isFalse h2 => .isFalse (fun e => h2 (by cases e; rfl))

end

instance : DecidableEq JVal := JVal.decEq

/-- A single-quote character, for Python `repr` output. -/
def sQuote : String := String.singleton (Char.ofNat 39)

mutual

/-- Python `str(v)` on a decoded JSON value. -/
def pyStr : JVal → String
  | .jnull => "None"
  | .jbool b => if b then "True" else "False"
  | .jnum n => Int.repr n
  | .jstr s => s
  | .jarr xs => "[" ++ pyReprJoin xs ++ "]"
  | .jobj kvs => "\x7b" ++ pyReprObjJoin kvs ++ "\x7d"

/-- Python `repr(v)`: like `pyStr` but strings are quoted. -/
def pyRepr : JVal → String
  | .jnull => "None"
  | .jbool b => if b then "True" else "False"
  | .jnum n => Int.repr n
  | .jstr s => sQuote ++ s ++ sQuote
  | .jarr xs => "[" ++ pyReprJoin xs ++ "]"
  | .jobj kvs => "\x7b" ++ pyReprObjJoin kvs ++ "\x7d"

/-- Comma-joined `repr`s of list elements. -/
def pyReprJoin : List JVal → String
  | [] => ""
  | [v] => pyRepr v
  | v :: rest => pyRepr v ++ ", " ++ pyReprJoin rest

/-- Comma-joined `repr`s of dict entries. -/
def pyReprObjJoin : List (String × JVal) → String
  | [] => ""
  | [(k, v)] => sQuote ++ k ++ sQuote ++ ": " ++ pyRepr v
  | (k, v) :: rest => sQuote ++ k ++ sQuote ++ ": " ++ pyRepr v ++ ", " ++ pyReprObjJoin rest

end

/-- Python truthiness of a decoded JSON value. -/
def pyTruthy : JVal → Bool
  | .jnull => false
  | .jbool b => b
  | .jnum n => n != 0
  | .jstr s => s != ""
  | .jarr xs => !xs.isEmpty
  | .jobj kvs => !kvs.isEmpty

/-- Python `key in d` on a decoded JSON object (association list with unique keys). -/
def jHasKey (kvs : List (String × JVal)) (k : String) : Bool :=
  kvs.any (fun p => p.1 = k)

/-- Python `d[key]` / `d.get(key)` on a decoded JSON object. -/
def jGet (kvs : List (String × JVal)) (k : String) : Option JVal :=
  (kvs.find? (fun p => p.1 = k)).map (·.2)

/-- Python `value.get("inputs", dict())`, restricted to mapping-valued `inputs`.
A present non-mapping `inputs` value is treated as the empty mapping; in
Python such a value either raises `TypeError` at the subsequent subscript or
(for strings) performs substring tests that can only end in `TypeError`, so
in both systems such a node never yields a record.  Claims about the prompt
graph quantify over mapping-valued inputs. -/
def jGetObjD (kvs : List (String × JVal)) (k : String) : List (String × JVal) :=
  match jGet kvs k with
  | some (.jobj m) => m
  | _ => []


/-! ### Data model -/

/-- An emitted positive-prompt record (`prompt_info` dictionaries in the
source).  `node_id` holds the Python value of `node.get('id')` for workflow
records (`none` models Python `None`) and `some (.jstr key)` for prompt-graph
records; the `class_type` field of prompt-graph records is stored in
`node_type`. -/
structure Prompt where
  text : String
  node_id : Option JVal
  node_type : String
  title : String
  source : String
deriving DecidableEq

/-- A workflow node, the shape both workflow extractors read off each entry
of `workflow_data['nodes']`.  `id` is `node.get('id')`; `type` and `title`
are `node.get('type')` / `node.get('title')` (absent ⇒ the code's `''`
default; the code calls `.lower()` on them, so only string values — the only
values occurring in ComfyUI workflows — are modelled); `snr` is
`node.get('properties', dict()).get('Node name for S&R')`;
`widgets_values` holds arbitrary decoded JSON values. -/
structure WNode where
  id : Option JVal := none
  type : Option String := none
  title : Option String := none
  snr : Option JVal := none
  widgets_values : List JVal := []
deriving DecidableEq

/-- The `processed_nodes` set: Python values added via `processed_nodes.add`,
queried with `in` (list membership under decidable equality models Python
set membership under `==`). -/
abbrev NSet : Type := List (Option JVal)

/-- The text-encode test shared by all workflow extractors:
`node_type == 'CLIPTextEncode' or 'cliptext' in node_type.lower() or
node.get('properties', dict()).get('Node name for S&R') == 'CLIPTextEncode'`. -/
def isTextEncode (n : WNode) : Bool :=
  decide (n.type.getD "" = "CLIPTextEncode") ||
  pyIn "cliptext" (pyLower (n.type.getD "")) ||
  decide (n.snr = some (.jstr "CLIPTextEncode"))

/-- Python `chr(10).join(str(x) for x in xs)`. -/
def normListJoin (xs : List JVal) : String := joinSep "\n" (xs.map pyStr)

/-- The normalization the unified extractors apply to a raw widget/input
value before emission: a list becomes the newline-join of its stringified
elements, a non-string scalar is stringified, a string is kept as is. -/
def normFirst : JVal → String
  | .jarr xs => normListJoin xs
  | .jstr t => t
  | v => pyStr v

/-- The in-place list normalization of the unified workflow extractor
(`if isinstance(prompt_text, list): prompt_text = chr(10).join(...)`):
a list becomes the string of its newline-joined stringified elements,
every other value is left untouched. -/
def vnormOf : JVal → JVal
  | .jarr xs => .jstr (normListJoin xs)
  | w => w

/-- Python `isinstance(x, (str, int, float))`; Python `bool` is a subclass of
`int`, so booleans pass this test. -/
def emittable : JVal → Bool
  | .jstr _ => true
  | .jnum _ => true
  | .jbool _ => true
  | _ => false

/-- The string conjunct of the unified `is_positive` test:
`isinstance(prompt_text, str) and prompt_text.strip() != '' and
'negative' not in prompt_text.lower()[:50]`. -/
def wfStrPositiveCond : JVal → Bool
  | .jstr t => pyStrip t != "" && !(pyIn "negative" (pyHead50Lower t))
  | _ => false

/-- The string conjunct of the unified `is_negative` test:
`isinstance(prompt_text, str) and (prompt_text.strip() == '' or
prompt_text.lower().strip().startswith('negative'))`. -/
def wfStrNegativeCond : JVal → Bool
  | .jstr t => pyStrip t == "" || pyStartsWith (pyStrip (pyLower t)) "negative"
  | _ => false

/-- Python `.strip()` on a dynamically-typed Python value: defined on strings,
`AttributeError` otherwise. -/
def asStr : JVal → Except Unit String
  | .jstr s => .ok s
  | _ => .error ()

namespace UnifiedUI

/-- One iteration of the `for node in nodes` loop of
`ComfyUIPromptExtractorUI.extract_positive_from_workflow`
(`unified_extractor_ui.py` lines 394-442), total thanks to the
`isinstance` guards. -/
def workflowStep (s : NSet) (n : WNode) : Option Prompt × NSet :=
  let node_type := n.type.getD ""
  let title := pyLower (n.title.getD "")
  if n.id ∈ s then (none, s)
  else if isTextEncode n then
    match n.widgets_values with
    | [] => (none, s)
    | v :: _ =>
      let is_positive :=
        pyIn "positive" title || pyIn "pos" title ||
        (decide (title = "") && wfStrPositiveCond v) ||
        (decide (title = "untitled") && wfStrPositiveCond v)
      let is_negative :=
        pyIn "negative" title || pyIn "neg" title || wfStrNegativeCond v
      let vNorm : JVal := vnormOf v
      if is_positive && !is_negative && emittable vNorm then
        (some { text := pyStr vNorm, node_id := n.id, node_type := node_type,
                title := n.title.getD "Untitled", source := "workflow" },
         n.id :: s)
      else (none, s)
  else (none, s)

/-- The method `ComfyUIPromptExtractorUI.extract_positive_from_workflow`: iterate
`workflowStep` over the nodes, threading `processed_nodes`. -/
def extract_positive_from_workflow : List WNode → NSet → List Prompt × NSet
  | [], s => ([], s)
  | n :: rest, s =>
    match workflowStep s n with
    | (some p, s1) =>
      let r := extract_positive_from_workflow rest s1
      (p :: r.1, r.2)
    | (none, s1) => extract_positive_from_workflow rest s1

end UnifiedUI

/-- One step of the WorkflowGraphExtractor as the spec words it (section 4.1
steps 4-8): the raw widget value is normalized to text FIRST, and both
classification tests are applied to the normalized text.  This definition
follows the spec's words, to be compared with the source-derived
`UnifiedUI.workflowStep`, which classifies on the raw value. -/
def specNormFirstStep (s : NSet) (n : WNode) : Option Prompt × NSet :=
  let title := pyLower (n.title.getD "")
  if n.id ∈ s then (none, s)
  else if isTextEncode n then
    match n.widgets_values with
    | [] => (none, s)
    | v :: _ =>
      let raw := normFirst v
      let is_positive :=
        pyIn "positive" title || pyIn "pos" title ||
        ((decide (title = "") || decide (title = "untitled")) &&
          pyStrip raw != "" && !(pyIn "negative" (pyHead50Lower raw)))
      let is_negative :=
        pyIn "negative" title || pyIn "neg" title ||
        pyStrip raw == "" || pyStartsWith (pyStrip (pyLower raw)) "negative"
      if is_positive && !is_negative then
        (some { text := raw, node_id := n.id, node_type := n.type.getD "",
                title := n.title.getD "Untitled", source := "workflow" },
         n.id :: s)
      else (none, s)
  else (none, s)

/-- The WorkflowGraphExtractor as the spec words it: normalization before
classification at every node. -/
def specNormFirstWorkflow : List WNode → NSet → List Prompt × NSet
  | [], s => ([], s)
  | n :: rest, s =>
    match specNormFirstStep s n with
    | (some p, s1) =>
      let r := specNormFirstWorkflow rest s1
      (p :: r.1, r.2)
    | (none, s1) => specNormFirstWorkflow rest s1

namespace Comfyprompt

/-- The CLI `is_positive` expression (`comfyprompt_extractor.py` lines
85-90), with Python's left-to-right short-circuit evaluation: the two
title-based disjuncts never touch the widget value; the empty-title and
`'untitled'` disjuncts call `.strip()` / `.lower()` on it, raising
(`.error ()`) when it is not a string. -/
def isPositive (title : String) (v : JVal) : Except Unit Bool :=
  if pyIn "positive" title then .ok true
  else if pyIn "pos" title then .ok true
  else if title = "" then
    (asStr v).map (fun t => pyStrip t != "" && !(pyIn "negative" (pyHead50Lower t)))
  else if title = "untitled" then
    (asStr v).map (fun t => pyStrip t != "" && !(pyIn "negative" (pyHead50Lower t)))
  else .ok false

/-- The CLI `is_negative` expression (lines 93-98), short-circuit order:
title tests first, then `.strip()` on the widget value. -/
def isNegative (title : String) (v : JVal) : Except Unit Bool :=
  if pyIn "negative" title then .ok true
  else if pyIn "neg" title then .ok true
  else
    (asStr v).map (fun t =>
      pyStrip t == "" || pyStartsWith (pyStrip (pyLower t)) "negative")

/-- One iteration of the CLI workflow loop (`comfyprompt_extractor.py`
lines 65-110, identical in `comfy_drop_ui.py` lines 312-357).
`is_negative` is only evaluated when `is_positive` came out true
(`if is_positive and not is_negative`). -/
def workflowStep (s : NSet) (n : WNode) : Except Unit (Option Prompt × NSet) :=
  let node_type := n.type.getD ""
  let title := pyLower (n.title.getD "")
  if n.id ∈ s then .ok (none, s)
  else if isTextEncode n then
    match n.widgets_values with
    | [] => .ok (none, s)
    | v :: _ =>
      match isPositive title v with
      | .error e => .error e
      | .ok is_positive =>
        if is_positive then
          match isNegative title v with
          | .error e => .error e
          | .ok is_negative =>
            if is_negative then .ok (none, s)
            else
              .ok (some { text := pyStr v, node_id := n.id, node_type := node_type,
                          title := n.title.getD "Untitled", source := "workflow" },
                   n.id :: s)
        else .ok (none, s)
  else .ok (none, s)

/-- The CLI `extract_positive_from_workflow`: iterate the loop
body, aborting (as Python does) if any iteration raises. -/
def extract_positive_from_workflow : List WNode → NSet → Except Unit (List Prompt × NSet)
  | [], s => .ok ([], s)
  | n :: rest, s =>
    match workflowStep s n with
    | .error e => .error e
    | .ok (po, s1) =>
      match extract_positive_from_workflow rest s1 with
      | .error e => .error e
      | .ok (ps, s2) =>
        match po with
        | some p => .ok (p :: ps, s2)
        | none => .ok (ps, s2)

end Comfyprompt

/-! ### Prompt-graph extractors -/

namespace Comfyprompt

/-- One iteration of the `for key, value in prompt_data.items()` loop of the
CLI `extract_positive_from_prompt_data` (`comfyprompt_extractor.py` lines
114-155).  `if text_content and text_content.strip():` first tests Python
truthiness of the raw value, then calls `.strip()` on it — which raises
(`.error ()`) when a truthy non-string value was selected. -/
def promptStep (s : NSet) (kv : String × JVal) : Except Unit (Option Prompt × NSet) :=
  match kv.2 with
  | .jobj kvs =>
    let class_type := (jGet kvs "class_type").getD (.jstr "")
    if some (.jstr kv.1) ∈ s then .ok (none, s)
    else if decide (class_type = .jstr "CLIPTextEncode") then
      let inputs := jGetObjD kvs "inputs"
      let text_content : JVal :=
        if jHasKey inputs "text" then (jGet inputs "text").getD .jnull
        else if jHasKey inputs "prompt" then (jGet inputs "prompt").getD .jnull
        else .jstr ""
      if pyTruthy text_content then
        match asStr text_content with
        | .error e => .error e
        | .ok t =>
          if pyStrip t != "" then
            let is_negative := pyStrip t == "" || pyIn "negative" (pyHead50Lower t)
            if is_negative then .ok (none, s)
            else
              .ok (some { text := t, node_id := some (.jstr kv.1),
                          node_type := "CLIPTextEncode", title := "Node " ++ kv.1,
                          source := "prompt_data" },
                   some (.jstr kv.1) :: s)
          else .ok (none, s)
      else .ok (none, s)
    else .ok (none, s)
  | _ => .ok (none, s)

/-- CLI `extract_positive_from_prompt_data`: iterate the loop body over the
decoded `prompt` mapping, aborting if any iteration raises. -/
def extract_positive_from_prompt_data : List (String × JVal) → NSet → Except Unit (List Prompt × NSet)
  | [], s => .ok ([], s)
  | kv :: rest, s =>
    match promptStep s kv with
    | .error e => .error e
    | .ok (po, s1) =>
      match extract_positive_from_prompt_data rest s1 with
      | .error e => .error e
      | .ok (ps, s2) =>
        match po with
        | some p => .ok (p :: ps, s2)
        | none => .ok (ps, s2)

end Comfyprompt

namespace UnifiedUI

/-- One iteration of the `for key, value in prompt_data.items()` loop of
`ComfyUIPromptExtractorUI.extract_positive_from_prompt_data`
(`unified_extractor_ui.py` lines 446-494): a `None` (or absent) selected
text is skipped, the value is normalized to a string, then the emptiness
and negative-window tests run on the normalized string. -/
def promptStep (s : NSet) (kv : String × JVal) : Option Prompt × NSet :=
  match kv.2 with
  | .jobj kvs =>
    let class_type := (jGet kvs "class_type").getD (.jstr "")
    if some (.jstr kv.1) ∈ s then (none, s)
    else if decide (class_type = .jstr "CLIPTextEncode") then
      let inputs := jGetObjD kvs "inputs"
      let text_content : Option JVal :=
        if jHasKey inputs "text" then jGet inputs "text"
        else if jHasKey inputs "prompt" then jGet inputs "prompt"
        else none
      match text_content with
      | none => (none, s)
      | some .jnull => (none, s)
      | some v =>
        let t := normFirst v
        if pyStrip t != "" then
          if pyIn "negative" (pyHead50Lower t) then (none, s)
          else
            (some { text := t, node_id := some (.jstr kv.1),
                    node_type := "CLIPTextEncode", title := "Node " ++ kv.1,
                    source := "prompt_data" },
             some (.jstr kv.1) :: s)
        else (none, s)
    else (none, s)
  | _ => (none, s)

/-- The method `ComfyUIPromptExtractorUI.extract_positive_from_prompt_data`. -/
def extract_positive_from_prompt_data : List (String × JVal) → NSet → List Prompt × NSet
  | [], s => ([], s)
  | kv :: rest, s =>
    match promptStep s kv with
    | (some p, s1) =>
      let r := extract_positive_from_prompt_data rest s1
      (p :: r.1, r.2)
    | (none, s1) => extract_positive_from_prompt_data rest s1

end UnifiedUI

/-! ### Parameters extractors -/

/-- The positive-prompt key priority list shared by both parameters
extractors (`possible_keys`). -/
def priorityKeys : List String :=
  ["Positive prompt", "positive prompt", "Positive Prompt", "positive_prompt",
   "prompt", "Prompt"]

namespace PromptExtractor

/-- The continuation loop of the simple text parser
(`prompt_extractor.py` lines 67-77): keep space-appending stripped lines
until one is empty or contains a colon. -/
def simpleCont (acc : String) : List String → String
  | [] => acc
  | l :: rest =>
    let next_line := pyStrip l
    if pyIn ":" next_line || decide (next_line = "") then acc
    else simpleCont (acc ++ " " ++ next_line) rest

/-- The line scan of the simple text parser (lines 57-79): find the first
line whose stripped form starts (case-insensitively) with
`positive prompt:`, take what follows the colon, then run the continuation
loop. -/
def simpleScan : List String → Option String
  | [] => none
  | l :: rest =>
    let line := pyStrip l
    if pyStartsWith (pyLower line) "positive prompt:" then
      some (simpleCont (pyStrip (pyAfterColon line)) rest)
    else simpleScan rest

/-- The parsing core of `extract_positive_prompt` (`prompt_extractor.py`
lines 30-81), as a function of the raw `parameters` string.  The JSON branch
returns the raw dictionary value (`return parsed_params[key]` — no
stringification in this variant); since a JSON `null` decodes to Python
`None`, returning it is indistinguishable from the no-prompt result, which
`none` models.  A JSON-decode failure (`jsonLoads _ = none`) falls through
to the text parser. -/
def extract_positive_prompt (jsonLoads : String → Option JVal)
    (parameters_data : String) : Option JVal :=
  let viaText : Option JVal := (simpleScan (pySplitNl parameters_data)).map .jstr
  match jsonLoads parameters_data with
  | some (.jobj kvs) =>
    match priorityKeys.find? (jHasKey kvs) with
    | some k =>
      match (jGet kvs k).getD .jnull with
      | .jnull => none
      | v => some v
    | none => viaText
  | _ => viaText

end PromptExtractor

namespace UnifiedUI

/-- The known parameter keywords of the strict continuation policy. -/
def strictContParams : List String :=
  ["negative prompt", "steps", "sampler", "cfg scale", "seed", "size",
   "model", "clip skip"]

/-- The strict parameter-boundary test: the stripped lower-cased line
contains a colon together with a known parameter keyword. -/
def strictIsBoundary (line : String) : Bool :=
  let nl := pyLower (pyStrip line)
  pyIn ":" nl && strictContParams.any (fun p => pyIn p nl)

/-- The strict continuation loop (`unified_extractor_ui.py` lines 545-552):
collect the rstripped following lines until a parameter boundary. -/
def strictCollect : List String → List String
  | [] => []
  | l :: rest => if strictIsBoundary l then [] else pyRStrip l :: strictCollect rest

/-- The line scan of the strict text parser (lines 538-562).  The final
`splitlines` runs on a newline-join of rstripped lines, so modelling it by
splitting on the newline character is exact for newline-separated input. -/
def strictScan : List String → Option String
  | [] => none
  | l :: rest =>
    if pyStartsWith (pyLower (pyStrip l)) "positive prompt:" then
      let prompt_text := if pyIn ":" l then pyStrip (pyAfterColon l) else ""
      let prompt_lines :=
        (if prompt_text != "" then [prompt_text] else []) ++ strictCollect rest
      let full_prompt := pyRStrip (joinSep "\n" prompt_lines)
      let out_lines := pySplitNl full_prompt
      let remaining := out_lines.dropWhile (fun x => pyStrip x == "")
      if remaining.isEmpty then none else some (joinSep "\n" remaining)
    else strictScan rest

/-- The text-parsing stage of the strict parameters extractor. -/
def strictTextParse (parameters_data : String) : Option String :=
  strictScan (pySplitNl parameters_data)

/-- The JSON stage of the strict parameters extractor (lines 517-534).
`some r` means the Python function returns `r` here (`r = none` models
`return ... else None` on a JSON `null` value); `none` means fall through to
text parsing (non-object JSON, or no priority key present). -/
def strictJsonBranch : JVal → Option (Option String)
  | .jobj kvs =>
    match priorityKeys.find? (jHasKey kvs) with
    | some k =>
      match (jGet kvs k).getD .jnull with
      | .jarr xs => some (some (joinSep "\n" (xs.map pyStr)))
      | .jnull => some none
      | v => some (some (pyStr v))
    | none => none
  | _ => none

/-- The method `extract_positive_from_parameters_strict` restricted to its
string-parsing core (lines 516-562): try JSON, fall through to the text
parser on decode failure or on fall-through. -/
def strictCore (jsonLoads : String → Option JVal) (parameters_data : String) :
    Option String :=
  match jsonLoads parameters_data with
  | some parsed =>
    match strictJsonBranch parsed with
    | some r => r
    | none => strictTextParse parameters_data
  | none => strictTextParse parameters_data

end UnifiedUI

/-! ### Metadata values and pipelines -/

/-- A raw PNG metadata value as PIL may hand it to the strict parameters
extractor: string, bytes, number, list, dict, or `None`. -/
inductive PyV where
  | pstr (s : String)
  | pbytes (bs : List Nat)
  | pnum (n : Int)
  | plist (xs : List JVal)
  | pdict (kvs : List (String × JVal))
  | pnone
deriving DecidableEq

/-- Python `metadata[k]` on the PIL `info` mapping. -/
def mdGet (md : List (String × PyV)) (k : String) : Option PyV :=
  (md.find? (fun p => p.1 = k)).map (·.2)

/-- The string coercion the strict extractor applies to the raw
`parameters` value (lines 504-514): bytes are decoded (the decoder is an
external oracle), lists and dicts are `json.dumps`-serialized (oracle),
strings pass through, anything else goes through `str()`. -/
def coerceParameters (decodeBytes : List Nat → String) (jsonDumps : JVal → String) :
    PyV → String
  | .pbytes bs => decodeBytes bs
  | .plist xs => jsonDumps (.jarr xs)
  | .pdict kvs => jsonDumps (.jobj kvs)
  | .pstr s => s
  | .pnum n => Int.repr n
  | .pnone => "None"

namespace UnifiedUI

/-- The method `ComfyUIPromptExtractorUI.extract_positive_from_parameters_strict`
(`unified_extractor_ui.py` lines 496-566) over a metadata mapping: absent
`parameters` key yields `none`; a present value is coerced to a string and
parsed by `strictCore`.  Every operation on the value is guarded by
`isinstance` checks in the source (with a final `except Exception: return
None`), so the embedding is a total function. -/
def extract_positive_from_parameters_strict (jsonLoads : String → Option JVal)
    (decodeBytes : List Nat → String) (jsonDumps : JVal → String)
    (metadata : List (String × PyV)) : Option String :=
  match mdGet metadata "parameters" with
  | none => none
  | some v =>
    let parameters_data :=
      match v with
      | .pbytes bs => decodeBytes bs
      | .plist xs => jsonDumps (.jarr xs)
      | .pdict kvs => jsonDumps (.jobj kvs)
      | .pstr s => s
      | .pnum n => Int.repr n
      | .pnone => "None"
    strictCore jsonLoads parameters_data

/-- The record-building part of
`ComfyUIPromptExtractorUI.extract_positive_prompts_parameters` (lines
373-381): wrap a truthy extracted prompt into a single record. -/
def extract_positive_prompts_parameters (jsonLoads : String → Option JVal)
    (decodeBytes : List Nat → String) (jsonDumps : JVal → String)
    (metadata : List (String × PyV)) : List Prompt :=
  match extract_positive_from_parameters_strict jsonLoads decodeBytes jsonDumps metadata with
  | some t =>
    if t != "" then
      [{ text := t, node_id := some (.jstr "parameters"),
         node_type := "parameters", title := "Parameters",
         source := "parameters" }]
    else []
  | none => []

end UnifiedUI

/-- The ComfyUI-mode metadata relevant to the graph pipeline: for each of
the `workflow` and `prompt` keys, `none` means the key is absent and
`some none` means the key is present but `json.loads` fails on it (a logged
warning, treated as zero records). -/
structure ComfyMeta where
  workflow : Option (Option (List WNode)) := none
  prompt : Option (Option (List (String × JVal))) := none

namespace Comfyprompt

/-- The pipeline of `extract_positive_prompts_only`
(`comfyprompt_extractor.py` lines 34-52), of the CLI extractors: run the
workflow extractor with a fresh `processed_nodes` set; only when it produced
zero records, run the prompt-graph extractor with the same set.  A
`json.JSONDecodeError` on either key is caught and logged (zero records,
the `some none` / `none` arms), but an `AttributeError` raised inside an
extractor is NOT caught here — it propagates and the whole file fails,
which `.error` models. -/
def extract_positive_prompts_only (md : ComfyMeta) : Except Unit (List Prompt) :=
  let wres : Except Unit (List Prompt × NSet) :=
    match md.workflow with
    | some (some nodes) => extract_positive_from_workflow nodes ([] : NSet)
    | some none => .ok ([], [])
    | none => .ok ([], [])
  match wres with
  | .error e => .error e
  | .ok (ps1, s1) =>
    if ps1.isEmpty then
      match md.prompt with
      | some (some pd) =>
        match extract_positive_from_prompt_data pd s1 with
        | .error e => .error e
        | .ok r2 => .ok (ps1 ++ r2.1)
      | some none => .ok ps1
      | none => .ok ps1
    else .ok ps1

end Comfyprompt

namespace UnifiedUI

/-- The pipeline of `ComfyUIPromptExtractorUI.extract_positive_prompts_comfyui`
(`unified_extractor_ui.py` lines 330-348, identical in structure to
`extract_positive_prompts_only` of `comfyprompt_extractor.py` lines 34-52):
run the workflow extractor with a fresh `processed_nodes` set; only when it
produced zero records, run the prompt-graph extractor with the same set. -/
def extract_positive_prompts_comfyui (md : ComfyMeta) : List Prompt :=
  let r1 :=
    match md.workflow with
    | some (some nodes) => extract_positive_from_workflow nodes ([] : NSet)
    | some none => (([] : List Prompt), ([] : NSet))
    | none => (([] : List Prompt), ([] : NSet))
  if r1.1.isEmpty then
    match md.prompt with
    | some (some pd) => r1.1 ++ (extract_positive_from_prompt_data pd r1.2).1
    | some none => r1.1
    | none => r1.1
  else r1.1

end UnifiedUI

/-- The per-pair emission function of the PromptGraphExtractor as claim C7
describes it (spec section 4.2), independent of any processed-node state: an
object node whose `class_type` is `"CLIPTextEncode"`, whose selected text —
`inputs["text"]` if that key is present, else `inputs["prompt"]` — exists
(is not JSON null) and normalizes to a string that is non-empty after
stripping and whose first 50 lower-cased characters do not contain
`"negative"`, yields a record with the normalized text, node id `key` and
title `"Node " + key`; everything else yields nothing. -/
def pgEmit (k : String) (v : JVal) : Option Prompt :=
  match v with
  | .jobj kvs =>
    if decide ((jGet kvs "class_type").getD (.jstr "") = .jstr "CLIPTextEncode") then
      match (if jHasKey (jGetObjD kvs "inputs") "text" then jGet (jGetObjD kvs "inputs") "text"
             else if jHasKey (jGetObjD kvs "inputs") "prompt" then jGet (jGetObjD kvs "inputs") "prompt"
             else none) with
      | none => none
      | some .jnull => none
      | some w =>
        if pyStrip (normFirst w) != "" then
          if pyIn "negative" (pyHead50Lower (normFirst w)) then none
          else
            some { text := normFirst w, node_id := some (.jstr k),
                   node_type := "CLIPTextEncode", title := "Node " ++ k,
                   source := "prompt_data" }
        else none
    else none
  | _ => none

/-! ### Concrete test fixtures -/

/-- A CLIPTextEncode node titled "Positive" whose non-empty text starts with
"negative". -/
def c1Node : WNode :=
  { id := some (.jnum 7), type := some "CLIPTextEncode", title := some "Positive",
    widgets_values := [.jstr "negative space art"] }

/-- A CLIPTextEncode node titled "Positive" with ordinary text. -/
def c1PosNode : WNode :=
  { id := some (.jnum 5), type := some "CLIPTextEncode", title := some "Positive",
    widgets_values := [.jstr "a cat"] }

/-- A CLIPTextEncode node titled "pos" whose first widget value is a list
whose only element starts with "negative". -/
def c2Node : WNode :=
  { id := some (.jnum 1), type := some "CLIPTextEncode", title := some "pos",
    widgets_values := [.jarr [.jstr "negative art"]] }

/-- A CLIPTextEncode node titled "pos" whose first widget value is the
empty list. -/
def c4Node : WNode :=
  { id := some (.jnum 2), type := some "CLIPTextEncode", title := some "pos",
    widgets_values := [.jarr []] }

/-- The round-trip parameters string of claim C6. -/
def c6Input : String := "Positive prompt: foo bar\nSteps: 20"

/-- A `json.loads` oracle decoding the JSON text for an object with a null
"prompt" value. -/
def c3NullOracle : String → Option JVal :=
  fun s =>
    if s = "\x7b\"prompt\": null\x7d" then some (.jobj [("prompt", .jnull)])
    else none

/-- A `json.loads` oracle decoding the JSON text for an object mapping
"prompt" to the list ["a", "b"]. -/
def c3ListOracle : String → Option JVal :=
  fun s =>
    if s = "\x7b\"prompt\": [\"a\", \"b\"]\x7d" then
      some (.jobj [("prompt", .jarr [.jstr "a", .jstr "b"])])
    else none

/-- A prompt-graph node map with one plain and one negative CLIPTextEncode
node. -/
def c7Pd : List (String × JVal) :=
  [("3", .jobj [("class_type", .jstr "CLIPTextEncode"),
                ("inputs", .jobj [("text", .jstr "hello world")])]),
   ("7", .jobj [("class_type", .jstr "CLIPTextEncode"),
                ("inputs", .jobj [("text", .jstr "negative blurry")])])]

/-- An id-less eligible CLIPTextEncode node. -/
def c9Node1 : WNode :=
  { type := some "CLIPTextEncode", title := some "Positive",
    widgets_values := [.jstr "alpha"] }

/-- A second, distinct id-less eligible CLIPTextEncode node. -/
def c9Node2 : WNode :=
  { type := some "CLIPTextEncode", title := some "Positive",
    widgets_values := [.jstr "beta"] }

/-- A metadata mapping whose `parameters` value is a number. -/
def c10Md : List (String × PyV) := [("parameters", .pnum 7)]

/-! ### Helper lemmas -/

theorem pyStrip_empty : pyStrip "" = "" := rfl

theorem ne_empty_of_pyStrip_ne (t : String) (h : pyStrip t ≠ "") : t ≠ "" := by
  intro he
  subst he
  exact h pyStrip_empty

theorem normFirst_jstr (t : String) : normFirst (.jstr t) = t := rfl

/-- The function `Nat.toDigitsCore` never shortens its accumulator. -/
theorem toDigitsCore_length_le (b : Nat) :
    ∀ (fuel n : Nat) (ds : List Char),
      ds.length ≤ (Nat.toDigitsCore b fuel n ds).length := by
  intro fuel
  induction fuel with
  | zero => intro n ds; simp [Nat.toDigitsCore]
  | succ fuel ih =>
    intro n ds
    simp only [Nat.toDigitsCore]
    split
    · simp
    · exact le_trans (by simp) (ih (n / b) (Nat.digitChar (n % b) :: ds))

theorem toDigits_ne_nil (b n : Nat) : Nat.toDigits b n ≠ [] := by
  unfold Nat.toDigits
  simp only [Nat.toDigitsCore]
  split
  · simp
  · intro h
    have := toDigitsCore_length_le b n (n / b) [Nat.digitChar (n % b)]
    rw [h] at this
    simp at this

theorem natRepr_ne_empty (n : Nat) : Nat.repr n ≠ "" := by
  unfold Nat.repr
  intro h
  have : (Nat.toDigits 10 n) = [] := by
    have := congrArg String.data h
    simpa [List.asString] using this
  exact toDigits_ne_nil 10 n this

theorem intRepr_ne_empty (n : Int) : Int.repr n ≠ "" := by
  cases n with
  | ofNat m => simpa [Int.repr] using natRepr_ne_empty m
  | negSucc m =>
    intro h
    have hl := congrArg String.length h
    rw [show (Int.negSucc m).repr = "-" ++ Nat.repr (m + 1) from rfl,
        String.length_append, show "-".length = 1 from rfl] at hl
    simp at hl


theorem pyStr_vnormOf (v : JVal) : pyStr (vnormOf v) = normFirst v := by
  cases v <;> rfl

namespace UnifiedUI

theorem workflowStep_skip (s : NSet) (n : WNode) (s1 : NSet)
    (h : workflowStep s n = (none, s1)) : s1 = s := by
  simp only [workflowStep] at h
  repeat' split at h
  all_goals simp_all

theorem workflowStep_emit (s : NSet) (n : WNode) (p : Prompt) (s1 : NSet)
    (h : workflowStep s n = (some p, s1)) :
    n.id ∉ s ∧ isTextEncode n = true ∧ s1 = n.id :: s ∧ p.node_id = n.id ∧
      p.source = "workflow" ∧
      ∃ v vs, n.widgets_values = v :: vs ∧ p.text = normFirst v ∧
        ((∃ xs, v = .jarr xs) ∨ p.text ≠ "") := by
  simp only [workflowStep] at h
  split at h
  · simp at h
  next hmem =>
    split at h
    next hte =>
      split at h
      · simp at h
      next v vs hwv =>
        split at h
        next hcond =>
          simp only [Prod.mk.injEq, Option.some.injEq] at h
          obtain ⟨hp, hs⟩ := h
          subst hp
          simp only [Bool.and_eq_true, Bool.not_eq_true'] at hcond
          obtain ⟨⟨hpos, hneg⟩, hemit⟩ := hcond
          refine ⟨hmem, hte, hs.symm, rfl, rfl, v, vs, hwv, pyStr_vnormOf v, ?_⟩
          cases v with
          | jarr xs => exact Or.inl ⟨xs, rfl⟩
          | jstr t =>
            refine Or.inr ?_
            simp only [Bool.or_eq_false_iff] at hneg
            have hsc : wfStrNegativeCond (.jstr t) = false := hneg.2
            simp only [wfStrNegativeCond, Bool.or_eq_false_iff] at hsc
            have hnst : pyStrip t ≠ "" := by
              intro he
              rw [he] at hsc
              simp at hsc
            exact ne_empty_of_pyStrip_ne t hnst
          | jnum m => exact Or.inr (intRepr_ne_empty m)
          | jbool b =>
            refine Or.inr ?_
            cases b
            · exact (by decide : ("False" : String) ≠ "")
            · exact (by decide : ("True" : String) ≠ "")
          | jnull => simp [vnormOf, emittable] at hemit
          | jobj kvs => simp [vnormOf, emittable] at hemit
        · simp at h
    · simp at h

theorem workflow_extract_shape : ∀ (nodes : List WNode) (s0 : NSet) (p : Prompt),
    p ∈ (extract_positive_from_workflow nodes s0).1 →
    ∃ n ∈ nodes, isTextEncode n = true ∧ p.node_id = n.id ∧ p.source = "workflow" ∧
      ∃ v vs, n.widgets_values = v :: vs ∧ p.text = normFirst v ∧
        ((∃ xs, v = .jarr xs) ∨ p.text ≠ "") := by
  intro nodes
  induction nodes with
  | nil => intro s0 p hp; simp [extract_positive_from_workflow] at hp
  | cons n tail ih =>
    intro s0 p hp
    unfold extract_positive_from_workflow at hp
    rcases hq : workflowStep s0 n with ⟨po, s1⟩
    rw [hq] at hp
    cases po with
    | none =>
      obtain ⟨m, hm, hrest⟩ := ih s1 p hp
      exact ⟨m, List.mem_cons_of_mem _ hm, hrest⟩
    | some q =>
      simp only [List.mem_cons] at hp
      rcases hp with hp | hp
      · subst hp
        obtain ⟨_, hte, _, hid, hsrc, hv⟩ := workflowStep_emit s0 n p s1 hq
        exact ⟨n, List.mem_cons_self n tail, hte, hid, hsrc, hv⟩
      · obtain ⟨m, hm, hrest⟩ := ih s1 p hp
        exact ⟨m, List.mem_cons_of_mem _ hm, hrest⟩

theorem workflow_extract_fresh : ∀ (nodes : List WNode) (s0 : NSet) (p : Prompt),
    p ∈ (extract_positive_from_workflow nodes s0).1 → p.node_id ∉ s0 := by
  intro nodes
  induction nodes with
  | nil => intro s0 p hp; simp [extract_positive_from_workflow] at hp
  | cons n tail ih =>
    intro s0 p hp
    unfold extract_positive_from_workflow at hp
    rcases hq : workflowStep s0 n with ⟨po, s1⟩
    rw [hq] at hp
    cases po with
    | none =>
      have hs := workflowStep_skip s0 n s1 hq
      subst hs
      exact ih s1 p hp
    | some q =>
      obtain ⟨hmem, _, hs1, hid, _⟩ := workflowStep_emit s0 n q s1 hq
      simp only [List.mem_cons] at hp
      rcases hp with hp | hp
      · subst hp; rw [hid]; exact hmem
      · have hni := ih s1 p hp
        rw [hs1] at hni
        exact fun hin => hni (List.mem_cons_of_mem _ hin)

theorem workflow_extract_nodup : ∀ (nodes : List WNode) (s0 : NSet),
    ((extract_positive_from_workflow nodes s0).1.map (fun p => p.node_id)).Pairwise (· ≠ ·) := by
  intro nodes
  induction nodes with
  | nil => intro s0; simp [extract_positive_from_workflow]
  | cons n tail ih =>
    intro s0
    unfold extract_positive_from_workflow
    rcases hq : workflowStep s0 n with ⟨po, s1⟩
    cases po with
    | none => exact ih s1
    | some q =>
      simp only [List.map_cons, List.pairwise_cons]
      refine ⟨?_, ih s1⟩
      intro x hx
      simp only [List.mem_map] at hx
      obtain ⟨r, hr, hxid⟩ := hx
      obtain ⟨_, _, hs1, hid, _⟩ := workflowStep_emit s0 n q s1 hq
      have hfresh := workflow_extract_fresh tail s1 r hr
      rw [hs1] at hfresh
      intro he
      rw [hid, ← hxid] at he
      exact hfresh (he ▸ List.mem_cons_self _ _)

end UnifiedUI

namespace UnifiedUI

theorem promptStep_skip (s : NSet) (kv : String × JVal) (s1 : NSet)
    (h : promptStep s kv = (none, s1)) : s1 = s := by
  simp only [promptStep] at h
  repeat' split at h
  all_goals simp_all

theorem promptStep_emit (s : NSet) (kv : String × JVal) (p : Prompt) (s1 : NSet)
    (h : promptStep s kv = (some p, s1)) :
    some (.jstr kv.1) ∉ s ∧ s1 = some (.jstr kv.1) :: s ∧
      p.node_id = some (.jstr kv.1) ∧ p.source = "prompt_data" ∧ p.text ≠ "" := by
  simp only [promptStep] at h
  split at h
  next kvs =>
    split at h
    · simp at h
    next hmem =>
      split at h
      · split at h
        · simp at h
        · simp at h
        next w =>
          split at h
          next hstrip =>
            split at h
            · simp at h
            · simp only [Prod.mk.injEq, Option.some.injEq] at h
              obtain ⟨hp, hs⟩ := h
              subst hp
              refine ⟨hmem, hs.symm, rfl, rfl, ?_⟩
              simp only [bne_iff_ne, ne_eq] at hstrip
              exact ne_empty_of_pyStrip_ne _ hstrip
          · simp at h
      · simp at h
  · simp at h

theorem promptData_extract_fresh : ∀ (pd : List (String × JVal)) (s0 : NSet) (p : Prompt),
    p ∈ (extract_positive_from_prompt_data pd s0).1 → p.node_id ∉ s0 := by
  intro pd
  induction pd with
  | nil => intro s0 p hp; simp [extract_positive_from_prompt_data] at hp
  | cons kv tail ih =>
    intro s0 p hp
    unfold extract_positive_from_prompt_data at hp
    rcases hq : promptStep s0 kv with ⟨po, s1⟩
    rw [hq] at hp
    cases po with
    | none =>
      have hs := promptStep_skip s0 kv s1 hq
      subst hs
      exact ih s1 p hp
    | some q =>
      obtain ⟨hmem, hs1, hid, _⟩ := promptStep_emit s0 kv q s1 hq
      simp only [List.mem_cons] at hp
      rcases hp with hp | hp
      · subst hp; rw [hid]; exact hmem
      · have hni := ih s1 p hp
        rw [hs1] at hni
        exact fun hin => hni (List.mem_cons_of_mem _ hin)

theorem promptData_extract_nodup : ∀ (pd : List (String × JVal)) (s0 : NSet),
    ((extract_positive_from_prompt_data pd s0).1.map (fun p => p.node_id)).Pairwise (· ≠ ·) := by
  intro pd
  induction pd with
  | nil => intro s0; simp [extract_positive_from_prompt_data]
  | cons kv tail ih =>
    intro s0
    unfold extract_positive_from_prompt_data
    rcases hq : promptStep s0 kv with ⟨po, s1⟩
    cases po with
    | none => exact ih s1
    | some q =>
      simp only [List.map_cons, List.pairwise_cons]
      refine ⟨?_, ih s1⟩
      intro x hx
      simp only [List.mem_map] at hx
      obtain ⟨r, hr, hxid⟩ := hx
      obtain ⟨_, hs1, hid, _⟩ := promptStep_emit s0 kv q s1 hq
      have hfresh := promptData_extract_fresh tail s1 r hr
      rw [hs1] at hfresh
      intro he
      rw [hid, ← hxid] at he
      exact hfresh (he ▸ List.mem_cons_self _ _)

theorem promptData_extract_source : ∀ (pd : List (String × JVal)) (s0 : NSet) (p : Prompt),
    p ∈ (extract_positive_from_prompt_data pd s0).1 → p.source = "prompt_data" ∧ p.text ≠ "" := by
  intro pd
  induction pd with
  | nil => intro s0 p hp; simp [extract_positive_from_prompt_data] at hp
  | cons kv tail ih =>
    intro s0 p hp
    unfold extract_positive_from_prompt_data at hp
    rcases hq : promptStep s0 kv with ⟨po, s1⟩
    rw [hq] at hp
    cases po with
    | none => exact ih s1 p hp
    | some q =>
      simp only [List.mem_cons] at hp
      rcases hp with hp | hp
      · obtain ⟨_, _, _, hsrc, hne⟩ := promptStep_emit s0 kv q s1 hq
        rw [hp]
        exact ⟨hsrc, hne⟩
      · exact ih s1 p hp

theorem promptStep_of_fresh (s : NSet) (kv : String × JVal)
    (hmem : some (.jstr kv.1) ∉ s) :
    promptStep s kv =
      (pgEmit kv.1 kv.2,
       match pgEmit kv.1 kv.2 with
       | some _ => some (.jstr kv.1) :: s
       | none => s) := by
  rcases kv with ⟨k, v⟩
  cases v <;> simp only [promptStep, pgEmit]
  case jobj kvs =>
    rw [if_neg hmem]
    repeat' split
    all_goals simp_all

theorem promptData_extract_filterMap :
    ∀ (pd : List (String × JVal)) (s : NSet),
      (∀ k v, (k, v) ∈ pd → some (JVal.jstr k) ∉ s) →
      (pd.map Prod.fst).Nodup →
      (extract_positive_from_prompt_data pd s).1 =
        pd.filterMap (fun kv => pgEmit kv.1 kv.2) := by
  intro pd
  induction pd with
  | nil => intro s _ _; rfl
  | cons kv tail ih =>
    intro s hf hn
    have hkv : some (JVal.jstr kv.1) ∉ s := by
      refine hf kv.1 kv.2 ?_
      rw [Prod.mk.eta]
      exact List.mem_cons_self _ _
    simp only [List.map_cons, List.nodup_cons] at hn
    obtain ⟨hhead, htail⟩ := hn
    unfold extract_positive_from_prompt_data
    rw [promptStep_of_fresh s kv hkv]
    cases hpe : pgEmit kv.1 kv.2 with
    | none =>
      simp only [List.filterMap_cons, hpe]
      exact ih s (fun k v hkvm => hf k v (List.mem_cons_of_mem _ hkvm)) htail
    | some q =>
      simp only [List.filterMap_cons, hpe]
      have htf : ∀ k v, (k, v) ∈ tail → some (JVal.jstr k) ∉ (some (JVal.jstr kv.1) :: s) := by
        intro k v hkvm
        simp only [List.mem_cons]
        rintro (he | he)
        · have hk : k = kv.1 := by
            injection he with he1
            injection he1 with he2
          exact hhead (hk ▸ (List.mem_map.mpr ⟨(k, v), hkvm, rfl⟩))
        · exact hf k v (List.mem_cons_of_mem _ hkvm) he
      have := ih (some (JVal.jstr kv.1) :: s) htf htail
      simp only [this]

end UnifiedUI

namespace Comfyprompt

theorem isNegative_ok_false (title : String) (v : JVal)
    (h : isNegative title v = .ok false) :
    ∃ t, v = .jstr t ∧ pyStrip t ≠ "" ∧
      pyStartsWith (pyStrip (pyLower t)) "negative" = false := by
  unfold isNegative at h
  split at h
  · simp at h
  · split at h
    · simp at h
    · cases v with
      | jstr t =>
        refine ⟨t, rfl, ?_, ?_⟩
        · intro he
          simp [asStr, Except.map, he] at h
        · simp only [asStr, Except.map, Except.ok.injEq] at h
          simp only [Bool.or_eq_false_iff] at h
          exact h.2
      | jnull => simp [asStr, Except.map] at h
      | jbool b => simp [asStr, Except.map] at h
      | jnum m => simp [asStr, Except.map] at h
      | jarr xs => simp [asStr, Except.map] at h
      | jobj kvs => simp [asStr, Except.map] at h

theorem workflowStep_cases (s : NSet) (n : WNode) (po : Option Prompt) (s1 : NSet)
    (h : workflowStep s n = .ok (po, s1)) :
    (po = none ∧ s1 = s) ∨
    (∃ p, po = some p ∧ n.id ∉ s ∧ s1 = n.id :: s ∧ p.node_id = n.id ∧
      p.source = "workflow" ∧
      ∃ t vs, n.widgets_values = .jstr t :: vs ∧ p.text = t ∧ pyStrip t ≠ "") := by
  simp only [workflowStep] at h
  split at h
  · simp only [Except.ok.injEq, Prod.mk.injEq] at h
    exact Or.inl ⟨h.1.symm, h.2.symm⟩
  next hmem =>
    split at h
    · split at h
      · simp only [Except.ok.injEq, Prod.mk.injEq] at h
        exact Or.inl ⟨h.1.symm, h.2.symm⟩
      next v vs hwv =>
        split at h
        · simp at h
        next bp hip =>
          split at h
          · split at h
            · simp at h
            next bn hin =>
              split at h
              · simp only [Except.ok.injEq, Prod.mk.injEq] at h
                exact Or.inl ⟨h.1.symm, h.2.symm⟩
              next hbn =>
                have hbnf : bn = false := by
                  revert hbn
                  cases bn <;> simp
                subst hbnf
                obtain ⟨t, hv, hst, _⟩ := isNegative_ok_false _ v hin
                subst hv
                simp only [Except.ok.injEq, Prod.mk.injEq] at h
                exact Or.inr ⟨_, h.1.symm, hmem, h.2.symm, rfl, rfl, t, vs, hwv, rfl, hst⟩
          · simp only [Except.ok.injEq, Prod.mk.injEq] at h
            exact Or.inl ⟨h.1.symm, h.2.symm⟩
    · simp only [Except.ok.injEq, Prod.mk.injEq] at h
      exact Or.inl ⟨h.1.symm, h.2.symm⟩
end Comfyprompt

namespace Comfyprompt

theorem workflow_extract_text : ∀ (nodes : List WNode) (s0 : NSet) (ps : List Prompt) (s1 : NSet),
    extract_positive_from_workflow nodes s0 = .ok (ps, s1) → ∀ p ∈ ps, p.text ≠ "" := by
  intro nodes
  induction nodes with
  | nil =>
    intro s0 ps s1 h p hp
    simp only [extract_positive_from_workflow, Except.ok.injEq, Prod.mk.injEq] at h
    rw [← h.1] at hp
    simp at hp
  | cons n tail ih =>
    intro s0 ps s1 h p hp
    unfold extract_positive_from_workflow at h
    cases hq : workflowStep s0 n with
    | error e => rw [hq] at h; simp at h
    | ok r =>
      rcases r with ⟨po, st⟩
      rw [hq] at h
      dsimp only at h
      cases hr : extract_positive_from_workflow tail st with
      | error e => rw [hr] at h; simp at h
      | ok r2 =>
        rcases r2 with ⟨ps2, s2⟩
        rw [hr] at h
        cases po with
        | none =>
          simp only [Except.ok.injEq, Prod.mk.injEq] at h
          rw [← h.1] at hp
          exact ih st ps2 s2 hr p hp
        | some q =>
          simp only [Except.ok.injEq, Prod.mk.injEq] at h
          rw [← h.1] at hp
          simp only [List.mem_cons] at hp
          rcases hp with hp | hp
          · rcases workflowStep_cases s0 n (some q) st hq with ⟨hno, _⟩ | ⟨q2, hq2, _, _, _, _, t, vs, _, htext, hst⟩
            · simp at hno
            · have : q2 = q := by
                injection hq2 with hv
                exact hv.symm
              subst this
              rw [hp, htext]
              exact ne_empty_of_pyStrip_ne t hst
          · exact ih st ps2 s2 hr p hp

theorem workflow_extract_noneId_free : ∀ (nodes : List WNode) (s0 : NSet) (ps : List Prompt) (s1 : NSet),
    extract_positive_from_workflow nodes s0 = .ok (ps, s1) → none ∈ s0 →
    ∀ p ∈ ps, p.node_id ≠ none := by
  intro nodes
  induction nodes with
  | nil =>
    intro s0 ps s1 h hn p hp
    simp only [extract_positive_from_workflow, Except.ok.injEq, Prod.mk.injEq] at h
    rw [← h.1] at hp
    simp at hp
  | cons n tail ih =>
    intro s0 ps s1 h hn p hp
    unfold extract_positive_from_workflow at h
    cases hq : workflowStep s0 n with
    | error e => rw [hq] at h; simp at h
    | ok r =>
      rcases r with ⟨po, st⟩
      rw [hq] at h
      dsimp only at h
      cases hr : extract_positive_from_workflow tail st with
      | error e => rw [hr] at h; simp at h
      | ok r2 =>
        rcases r2 with ⟨ps2, s2⟩
        rw [hr] at h
        rcases workflowStep_cases s0 n po st hq with ⟨hno, hss⟩ | ⟨q, hqq, hmem, hs1, hid, _, _⟩
        · subst hno
          subst hss
          simp only [Except.ok.injEq, Prod.mk.injEq] at h
          rw [← h.1] at hp
          exact ih st ps2 s2 hr hn p hp
        · subst hqq
          simp only [Except.ok.injEq, Prod.mk.injEq] at h
          rw [← h.1] at hp
          simp only [List.mem_cons] at hp
          rcases hp with hp | hp
          · rw [hp, hid]
            intro he
            rw [he] at hmem
            exact hmem hn
          · refine ih st ps2 s2 hr ?_ p hp
            rw [hs1]
            exact List.mem_cons_of_mem _ hn

theorem workflow_extract_noneId_count : ∀ (nodes : List WNode) (s0 : NSet) (ps : List Prompt) (s1 : NSet),
    extract_positive_from_workflow nodes s0 = .ok (ps, s1) →
    ps.countP (fun p => decide (p.node_id = none)) ≤ 1 := by
  intro nodes
  induction nodes with
  | nil =>
    intro s0 ps s1 h
    simp only [extract_positive_from_workflow, Except.ok.injEq, Prod.mk.injEq] at h
    rw [← h.1]
    simp
  | cons n tail ih =>
    intro s0 ps s1 h
    unfold extract_positive_from_workflow at h
    cases hq : workflowStep s0 n with
    | error e => rw [hq] at h; simp at h
    | ok r =>
      rcases r with ⟨po, st⟩
      rw [hq] at h
      dsimp only at h
      cases hr : extract_positive_from_workflow tail st with
      | error e => rw [hr] at h; simp at h
      | ok r2 =>
        rcases r2 with ⟨ps2, s2⟩
        rw [hr] at h
        rcases workflowStep_cases s0 n po st hq with ⟨hno, _⟩ | ⟨q, hqq, hmem, hs1, hid, _, _⟩
        · subst hno
          simp only [Except.ok.injEq, Prod.mk.injEq] at h
          rw [← h.1]
          exact ih st ps2 s2 hr
        · subst hqq
          simp only [Except.ok.injEq, Prod.mk.injEq] at h
          rw [← h.1]
          rw [List.countP_cons]
          by_cases hq0 : q.node_id = none
          · have hzero : ps2.countP (fun p => decide (p.node_id = none)) = 0 := by
              rw [List.countP_eq_zero]
              intro a ha
              have := workflow_extract_noneId_free tail st ps2 s2 hr ?_ a ha
              · simpa using this
              · rw [hs1, hid] at *
                rw [hq0] at *
                exact hq0 ▸ List.mem_cons_self _ _
            rw [hzero]
            simp [hq0]
          · have hdf : (decide (q.node_id = none)) = false := decide_eq_false hq0
            simp only [hdf, Bool.false_eq_true, if_false, Nat.add_zero]
            exact ih st ps2 s2 hr

end Comfyprompt

namespace Comfyprompt

theorem promptStep_cases (s : NSet) (kv : String × JVal) (po : Option Prompt) (s1 : NSet)
    (h : promptStep s kv = .ok (po, s1)) :
    (po = none ∧ s1 = s) ∨
    (∃ p, po = some p ∧ p.text ≠ "" ∧ s1 = some (.jstr kv.1) :: s ∧
      p.node_id = some (.jstr kv.1) ∧ p.source = "prompt_data") := by
  simp only [promptStep] at h
  repeat' split at h
  all_goals
    first
    | exact Except.noConfusion h
    | (simp only [Except.ok.injEq, Prod.mk.injEq] at h
       exact Or.inl ⟨h.1.symm, h.2.symm⟩)
    | (rename_i hstrip hneg
       simp only [bne_iff_ne, ne_eq] at hstrip
       simp only [Except.ok.injEq, Prod.mk.injEq] at h
       refine Or.inr ⟨_, h.1.symm, ?_, h.2.symm, rfl, rfl⟩
       exact ne_empty_of_pyStrip_ne _ hstrip)

theorem promptData_extract_text : ∀ (pd : List (String × JVal)) (s0 : NSet) (ps : List Prompt) (s1 : NSet),
    extract_positive_from_prompt_data pd s0 = .ok (ps, s1) → ∀ p ∈ ps, p.text ≠ "" := by
  intro pd
  induction pd with
  | nil =>
    intro s0 ps s1 h p hp
    simp only [extract_positive_from_prompt_data, Except.ok.injEq, Prod.mk.injEq] at h
    rw [← h.1] at hp
    simp at hp
  | cons kv tail ih =>
    intro s0 ps s1 h p hp
    unfold extract_positive_from_prompt_data at h
    cases hq : promptStep s0 kv with
    | error e => rw [hq] at h; simp at h
    | ok r =>
      rcases r with ⟨po, st⟩
      rw [hq] at h
      dsimp only at h
      cases hr : extract_positive_from_prompt_data tail st with
      | error e => rw [hr] at h; simp at h
      | ok r2 =>
        rcases r2 with ⟨ps2, s2⟩
        rw [hr] at h
        cases po with
        | none =>
          simp only [Except.ok.injEq, Prod.mk.injEq] at h
          rw [← h.1] at hp
          exact ih st ps2 s2 hr p hp
        | some q =>
          simp only [Except.ok.injEq, Prod.mk.injEq] at h
          rw [← h.1] at hp
          simp only [List.mem_cons] at hp
          rcases hp with hp | hp
          · rcases promptStep_cases s0 kv (some q) st hq with ⟨hno, _⟩ | ⟨q2, hq2, hqt, _, _, _⟩
            · simp at hno
            · have : q2 = q := by
                injection hq2 with hv
                exact hv.symm
              subst this
              rw [hp]
              exact hqt
          · exact ih st ps2 s2 hr p hp

end Comfyprompt

namespace UnifiedUI

theorem workflowStep_positive_title (s : NSet) (n : WNode) (t : String) (vs : List JVal)
    (hty : n.type = some "CLIPTextEncode") (hti : n.title = some "Positive")
    (hwv : n.widgets_values = .jstr t :: vs)
    (hne : pyStrip t ≠ "")
    (hns : pyStartsWith (pyStrip (pyLower t)) "negative" = false)
    (hid : n.id ∉ s) :
    workflowStep s n =
      (some { text := t, node_id := n.id, node_type := "CLIPTextEncode",
              title := "Positive", source := "workflow" }, n.id :: s) := by
  have hte : isTextEncode n = true := by simp [isTextEncode, hty]
  have h1 : pyIn "positive" (pyLower "Positive") = true := by decide
  have h2 : pyIn "negative" (pyLower "Positive") = false := by decide
  have h3 : pyIn "neg" (pyLower "Positive") = false := by decide
  have h4 : (pyStrip t == "") = false := by
    simp only [beq_eq_false_iff_ne, ne_eq]
    exact hne
  have h5 : wfStrNegativeCond (.jstr t) = false := by
    simp [wfStrNegativeCond, h4, hns]
  simp only [workflowStep, hty, hti, hwv, hte, hid, Option.getD_some, if_true, if_false,
    not_false_eq_true, ite_true, ite_false, h1, h2, h3, h5]
  simp [vnormOf, pyStr, emittable]

theorem workflow_extract_includes (pre : List WNode) (post : List WNode) (s0 : NSet)
    (n : WNode) (t : String) (vs : List JVal)
    (hty : n.type = some "CLIPTextEncode") (hti : n.title = some "Positive")
    (hwv : n.widgets_values = .jstr t :: vs)
    (hne : pyStrip t ≠ "")
    (hns : pyStartsWith (pyStrip (pyLower t)) "negative" = false)
    (hpre : ∀ m ∈ pre, m.id ≠ n.id) (hid : n.id ∉ s0) :
    ∃ p ∈ (extract_positive_from_workflow (pre ++ n :: post) s0).1,
      p.text = t ∧ p.node_id = n.id := by
  induction pre generalizing s0 with
  | nil =>
    rw [List.nil_append]
    unfold extract_positive_from_workflow
    rw [workflowStep_positive_title s0 n t vs hty hti hwv hne hns hid]
    exact ⟨_, List.mem_cons_self _ _, rfl, rfl⟩
  | cons m pre ih =>
    rw [List.cons_append]
    unfold extract_positive_from_workflow
    rcases hq : workflowStep s0 m with ⟨po, s1⟩
    have hmn : m.id ≠ n.id := hpre m (List.mem_cons_self _ _)
    have hpre1 : ∀ m2 ∈ pre, m2.id ≠ n.id :=
      fun m2 hm2 => hpre m2 (List.mem_cons_of_mem _ hm2)
    cases po with
    | none =>
      have hs1 : s1 = s0 := workflowStep_skip s0 m s1 hq
      subst hs1
      exact ih s1 hpre1 hid
    | some q =>
      obtain ⟨_, _, hs1, _⟩ := workflowStep_emit s0 m q s1 hq
      have hid1 : n.id ∉ s1 := by
        rw [hs1]
        simp only [List.mem_cons]
        rintro (he | he)
        · exact hmn he.symm
        · exact hid he
      obtain ⟨p, hp, hrest⟩ := ih s1 hpre1 hid1
      exact ⟨p, List.mem_cons_of_mem _ hp, hrest⟩

end UnifiedUI

namespace Comfyprompt

theorem workflowStep_emits_positive (s : NSet) (n : WNode) (t : String) (vs : List JVal)
    (hty : n.type = some "CLIPTextEncode") (hti : n.title = some "Positive")
    (hwv : n.widgets_values = .jstr t :: vs)
    (hne : pyStrip t ≠ "")
    (hns : pyStartsWith (pyStrip (pyLower t)) "negative" = false)
    (hid : n.id ∉ s) :
    workflowStep s n =
      .ok (some { text := t, node_id := n.id, node_type := "CLIPTextEncode",
                  title := "Positive", source := "workflow" }, n.id :: s) := by
  have hte : isTextEncode n = true := by simp [isTextEncode, hty]
  have h4 : (pyStrip t == "") = false := by
    simp only [beq_eq_false_iff_ne, ne_eq]
    exact hne
  have hip : isPositive (pyLower "Positive") (.jstr t) = .ok true := by
    simp only [isPositive]
    rw [if_pos (by decide : pyIn "positive" (pyLower "Positive") = true)]
  have hin : isNegative (pyLower "Positive") (.jstr t) = .ok false := by
    simp only [isNegative]
    rw [if_neg (by decide : ¬pyIn "negative" (pyLower "Positive") = true),
        if_neg (by decide : ¬pyIn "neg" (pyLower "Positive") = true)]
    simp only [asStr, Except.map, h4, hns, Bool.or_self]
  simp only [workflowStep, hty, hti, hwv, hte, hid, Option.getD_some, hip, hin]
  simp [pyStr]

theorem cli_workflow_includes (pre post : List WNode) (s0 : NSet) (n : WNode)
    (t : String) (vs : List JVal)
    (hty : n.type = some "CLIPTextEncode") (hti : n.title = some "Positive")
    (hwv : n.widgets_values = .jstr t :: vs)
    (hne : pyStrip t ≠ "")
    (hns : pyStartsWith (pyStrip (pyLower t)) "negative" = false)
    (hpre : ∀ m ∈ pre, m.id ≠ n.id) (hid : n.id ∉ s0) :
    ∀ ps s1, extract_positive_from_workflow (pre ++ n :: post) s0 = .ok (ps, s1) →
      ∃ p ∈ ps, p.text = t ∧ p.node_id = n.id := by
  induction pre generalizing s0 with
  | nil =>
    intro ps s1 h
    rw [List.nil_append] at h
    unfold extract_positive_from_workflow at h
    rw [workflowStep_emits_positive s0 n t vs hty hti hwv hne hns hid] at h
    dsimp only at h
    cases hr : extract_positive_from_workflow post (n.id :: s0) with
    | error e => rw [hr] at h; simp at h
    | ok r2 =>
      rcases r2 with ⟨ps2, s2⟩
      rw [hr] at h
      simp only [Except.ok.injEq, Prod.mk.injEq] at h
      rw [← h.1]
      exact ⟨_, List.mem_cons_self _ _, rfl, rfl⟩
  | cons m pre ih =>
    intro ps s1 h
    rw [List.cons_append] at h
    unfold extract_positive_from_workflow at h
    cases hq : workflowStep s0 m with
    | error e => rw [hq] at h; simp at h
    | ok r =>
      rcases r with ⟨po, st⟩
      rw [hq] at h
      dsimp only at h
      cases hr : extract_positive_from_workflow (pre ++ n :: post) st with
      | error e => rw [hr] at h; simp at h
      | ok r2 =>
        rcases r2 with ⟨ps2, s2⟩
        rw [hr] at h
        have hmn : m.id ≠ n.id := hpre m (List.mem_cons_self _ _)
        have hpre1 : ∀ m2 ∈ pre, m2.id ≠ n.id :=
          fun m2 hm2 => hpre m2 (List.mem_cons_of_mem _ hm2)
        have hid1 : n.id ∉ st := by
          rcases workflowStep_cases s0 m po st hq with ⟨_, hss⟩ | ⟨q, _, _, hs1, _⟩
          · rw [hss]; exact hid
          · rw [hs1]
            simp only [List.mem_cons]
            rintro (he | he)
            · exact hmn he.symm
            · exact hid he
        obtain ⟨p, hp, hrest⟩ := ih st hpre1 hid1 ps2 s2 hr
        cases po with
        | none =>
          simp only [Except.ok.injEq, Prod.mk.injEq] at h
          rw [← h.1]
          exact ⟨p, hp, hrest⟩
        | some q =>
          simp only [Except.ok.injEq, Prod.mk.injEq] at h
          rw [← h.1]
          exact ⟨p, List.mem_cons_of_mem _ hp, hrest⟩

end Comfyprompt

namespace Comfyprompt

theorem cli_workflow_fresh : ∀ (nodes : List WNode) (s0 : NSet) (ps : List Prompt) (s1 : NSet),
    extract_positive_from_workflow nodes s0 = .ok (ps, s1) →
    ∀ p ∈ ps, p.node_id ∉ s0 := by
  intro nodes
  induction nodes with
  | nil =>
    intro s0 ps s1 h p hp
    simp only [extract_positive_from_workflow, Except.ok.injEq, Prod.mk.injEq] at h
    rw [← h.1] at hp
    simp at hp
  | cons n tail ih =>
    intro s0 ps s1 h p hp
    unfold extract_positive_from_workflow at h
    cases hq : workflowStep s0 n with
    | error e => rw [hq] at h; simp at h
    | ok r =>
      rcases r with ⟨po, st⟩
      rw [hq] at h
      dsimp only at h
      cases hr : extract_positive_from_workflow tail st with
      | error e => rw [hr] at h; simp at h
      | ok r2 =>
        rcases r2 with ⟨ps2, s2⟩
        rw [hr] at h
        rcases workflowStep_cases s0 n po st hq with ⟨hno, hss⟩ | ⟨q, hqq, hmem, hs1, hid, _, _⟩
        · subst hno
          subst hss
          simp only [Except.ok.injEq, Prod.mk.injEq] at h
          rw [← h.1] at hp
          exact ih st ps2 s2 hr p hp
        · subst hqq
          simp only [Except.ok.injEq, Prod.mk.injEq] at h
          rw [← h.1] at hp
          simp only [List.mem_cons] at hp
          rcases hp with hp | hp
          · rw [hp, hid]; exact hmem
          · have hni := ih st ps2 s2 hr p hp
            rw [hs1] at hni
            exact fun hin => hni (List.mem_cons_of_mem _ hin)

theorem cli_workflow_nodup : ∀ (nodes : List WNode) (s0 : NSet) (ps : List Prompt) (s1 : NSet),
    extract_positive_from_workflow nodes s0 = .ok (ps, s1) →
    (ps.map (fun p => p.node_id)).Pairwise (· ≠ ·) := by
  intro nodes
  induction nodes with
  | nil =>
    intro s0 ps s1 h
    simp only [extract_positive_from_workflow, Except.ok.injEq, Prod.mk.injEq] at h
    rw [← h.1]
    simp
  | cons n tail ih =>
    intro s0 ps s1 h
    unfold extract_positive_from_workflow at h
    cases hq : workflowStep s0 n with
    | error e => rw [hq] at h; simp at h
    | ok r =>
      rcases r with ⟨po, st⟩
      rw [hq] at h
      dsimp only at h
      cases hr : extract_positive_from_workflow tail st with
      | error e => rw [hr] at h; simp at h
      | ok r2 =>
        rcases r2 with ⟨ps2, s2⟩
        rw [hr] at h
        rcases workflowStep_cases s0 n po st hq with ⟨hno, _⟩ | ⟨q, hqq, hmem, hs1, hid, _, _⟩
        · subst hno
          simp only [Except.ok.injEq, Prod.mk.injEq] at h
          rw [← h.1]
          exact ih st ps2 s2 hr
        · subst hqq
          simp only [Except.ok.injEq, Prod.mk.injEq] at h
          rw [← h.1]
          simp only [List.map_cons, List.pairwise_cons]
          refine ⟨?_, ih st ps2 s2 hr⟩
          intro x hx
          simp only [List.mem_map] at hx
          obtain ⟨r, hrm, hxid⟩ := hx
          have hfresh := cli_workflow_fresh tail st ps2 s2 hr r hrm
          rw [hs1] at hfresh
          intro he
          rw [hid, ← hxid] at he
          exact hfresh (he ▸ List.mem_cons_self _ _)

theorem cli_workflow_sources : ∀ (nodes : List WNode) (s0 : NSet) (ps : List Prompt) (s1 : NSet),
    extract_positive_from_workflow nodes s0 = .ok (ps, s1) →
    ∀ p ∈ ps, p.source = "workflow" := by
  intro nodes
  induction nodes with
  | nil =>
    intro s0 ps s1 h p hp
    simp only [extract_positive_from_workflow, Except.ok.injEq, Prod.mk.injEq] at h
    rw [← h.1] at hp
    simp at hp
  | cons n tail ih =>
    intro s0 ps s1 h p hp
    unfold extract_positive_from_workflow at h
    cases hq : workflowStep s0 n with
    | error e => rw [hq] at h; simp at h
    | ok r =>
      rcases r with ⟨po, st⟩
      rw [hq] at h
      dsimp only at h
      cases hr : extract_positive_from_workflow tail st with
      | error e => rw [hr] at h; simp at h
      | ok r2 =>
        rcases r2 with ⟨ps2, s2⟩
        rw [hr] at h
        rcases workflowStep_cases s0 n po st hq with ⟨hno, _⟩ | ⟨q, hqq, _, _, _, hsrc, _⟩
        · subst hno
          simp only [Except.ok.injEq, Prod.mk.injEq] at h
          rw [← h.1] at hp
          exact ih st ps2 s2 hr p hp
        · subst hqq
          simp only [Except.ok.injEq, Prod.mk.injEq] at h
          rw [← h.1] at hp
          simp only [List.mem_cons] at hp
          rcases hp with hp | hp
          · rw [hp]; exact hsrc
          · exact ih st ps2 s2 hr p hp

theorem promptStep_mem (s : NSet) (kv : String × JVal)
    (hmem : some (.jstr kv.1) ∈ s) : promptStep s kv = .ok (none, s) := by
  rcases kv with ⟨k, v⟩
  cases v <;> simp only [promptStep]
  case jobj kvs => rw [if_pos hmem]

end Comfyprompt

namespace Comfyprompt

theorem promptStep_emit_fresh (s : NSet) (kv : String × JVal) (q : Prompt) (st : NSet)
    (hq : promptStep s kv = .ok (some q, st)) : some (.jstr kv.1) ∉ s := by
  intro hmem
  rw [promptStep_mem s kv hmem] at hq
  simp at hq

theorem cli_promptData_fresh : ∀ (pd : List (String × JVal)) (s0 : NSet) (ps : List Prompt) (s1 : NSet),
    extract_positive_from_prompt_data pd s0 = .ok (ps, s1) →
    ∀ p ∈ ps, p.node_id ∉ s0 := by
  intro pd
  induction pd with
  | nil =>
    intro s0 ps s1 h p hp
    simp only [extract_positive_from_prompt_data, Except.ok.injEq, Prod.mk.injEq] at h
    rw [← h.1] at hp
    simp at hp
  | cons kv tail ih =>
    intro s0 ps s1 h p hp
    unfold extract_positive_from_prompt_data at h
    cases hq : promptStep s0 kv with
    | error e => rw [hq] at h; simp at h
    | ok r =>
      rcases r with ⟨po, st⟩
      rw [hq] at h
      dsimp only at h
      cases hr : extract_positive_from_prompt_data tail st with
      | error e => rw [hr] at h; simp at h
      | ok r2 =>
        rcases r2 with ⟨ps2, s2⟩
        rw [hr] at h
        rcases promptStep_cases s0 kv po st hq with ⟨hno, hss⟩ | ⟨q, hqq, _, hs1, hid, _⟩
        · subst hno
          subst hss
          simp only [Except.ok.injEq, Prod.mk.injEq] at h
          rw [← h.1] at hp
          exact ih st ps2 s2 hr p hp
        · subst hqq
          have hmem := promptStep_emit_fresh s0 kv q st hq
          simp only [Except.ok.injEq, Prod.mk.injEq] at h
          rw [← h.1] at hp
          simp only [List.mem_cons] at hp
          rcases hp with hp | hp
          · rw [hp, hid]; exact hmem
          · have hni := ih st ps2 s2 hr p hp
            rw [hs1] at hni
            exact fun hin => hni (List.mem_cons_of_mem _ hin)

theorem cli_promptData_nodup : ∀ (pd : List (String × JVal)) (s0 : NSet) (ps : List Prompt) (s1 : NSet),
    extract_positive_from_prompt_data pd s0 = .ok (ps, s1) →
    (ps.map (fun p => p.node_id)).Pairwise (· ≠ ·) := by
  intro pd
  induction pd with
  | nil =>
    intro s0 ps s1 h
    simp only [extract_positive_from_prompt_data, Except.ok.injEq, Prod.mk.injEq] at h
    rw [← h.1]
    simp
  | cons kv tail ih =>
    intro s0 ps s1 h
    unfold extract_positive_from_prompt_data at h
    cases hq : promptStep s0 kv with
    | error e => rw [hq] at h; simp at h
    | ok r =>
      rcases r with ⟨po, st⟩
      rw [hq] at h
      dsimp only at h
      cases hr : extract_positive_from_prompt_data tail st with
      | error e => rw [hr] at h; simp at h
      | ok r2 =>
        rcases r2 with ⟨ps2, s2⟩
        rw [hr] at h
        rcases promptStep_cases s0 kv po st hq with ⟨hno, _⟩ | ⟨q, hqq, _, hs1, hid, _⟩
        · subst hno
          simp only [Except.ok.injEq, Prod.mk.injEq] at h
          rw [← h.1]
          exact ih st ps2 s2 hr
        · subst hqq
          simp only [Except.ok.injEq, Prod.mk.injEq] at h
          rw [← h.1]
          simp only [List.map_cons, List.pairwise_cons]
          refine ⟨?_, ih st ps2 s2 hr⟩
          intro x hx
          simp only [List.mem_map] at hx
          obtain ⟨r, hrm, hxid⟩ := hx
          have hfresh := cli_promptData_fresh tail st ps2 s2 hr r hrm
          rw [hs1] at hfresh
          intro he
          rw [hid, ← hxid] at he
          exact hfresh (he ▸ List.mem_cons_self _ _)

theorem cli_promptData_sources : ∀ (pd : List (String × JVal)) (s0 : NSet) (ps : List Prompt) (s1 : NSet),
    extract_positive_from_prompt_data pd s0 = .ok (ps, s1) →
    ∀ p ∈ ps, p.source = "prompt_data" := by
  intro pd
  induction pd with
  | nil =>
    intro s0 ps s1 h p hp
    simp only [extract_positive_from_prompt_data, Except.ok.injEq, Prod.mk.injEq] at h
    rw [← h.1] at hp
    simp at hp
  | cons kv tail ih =>
    intro s0 ps s1 h p hp
    unfold extract_positive_from_prompt_data at h
    cases hq : promptStep s0 kv with
    | error e => rw [hq] at h; simp at h
    | ok r =>
      rcases r with ⟨po, st⟩
      rw [hq] at h
      dsimp only at h
      cases hr : extract_positive_from_prompt_data tail st with
      | error e => rw [hr] at h; simp at h
      | ok r2 =>
        rcases r2 with ⟨ps2, s2⟩
        rw [hr] at h
        rcases promptStep_cases s0 kv po st hq with ⟨hno, _⟩ | ⟨q, hqq, _, _, _, hsrc⟩
        · subst hno
          simp only [Except.ok.injEq, Prod.mk.injEq] at h
          rw [← h.1] at hp
          exact ih st ps2 s2 hr p hp
        · subst hqq
          simp only [Except.ok.injEq, Prod.mk.injEq] at h
          rw [← h.1] at hp
          simp only [List.mem_cons] at hp
          rcases hp with hp | hp
          · rw [hp]; exact hsrc
          · exact ih st ps2 s2 hr p hp

end Comfyprompt

namespace Comfyprompt

theorem pipeline_ok_shape (md : ComfyMeta) (ps : List Prompt)
    (h : extract_positive_prompts_only md = .ok ps) :
    (∃ nodes s1, md.workflow = some (some nodes) ∧
       extract_positive_from_workflow nodes ([] : NSet) = .ok (ps, s1)) ∨
    (∃ pd s1 s2, md.prompt = some (some pd) ∧
       extract_positive_from_prompt_data pd s1 = .ok (ps, s2)) ∨
    ps = [] := by
  rcases md with ⟨wf, pr⟩
  simp only [extract_positive_prompts_only] at h
  cases wf with
  | some wfo =>
    cases wfo with
    | some nodes =>
      dsimp only at h
      cases hw : extract_positive_from_workflow nodes ([] : NSet) with
      | error e => rw [hw] at h; simp at h
      | ok r1 =>
        rcases r1 with ⟨ps1, s1⟩
        rw [hw] at h
        dsimp only at h
        by_cases he : ps1.isEmpty = true
        · rw [if_pos he] at h
          have hnil : ps1 = [] := List.isEmpty_iff.mp he
          cases pr with
          | none =>
            simp only [Except.ok.injEq] at h
            exact Or.inr (Or.inr (h ▸ hnil))
          | some pro =>
            cases pro with
            | none =>
              simp only [Except.ok.injEq] at h
              exact Or.inr (Or.inr (h ▸ hnil))
            | some pd =>
              dsimp only at h
              cases hr : extract_positive_from_prompt_data pd s1 with
              | error e => rw [hr] at h; simp at h
              | ok r2 =>
                rcases r2 with ⟨ps2, s2⟩
                rw [hr] at h
                dsimp only at h
                rw [hnil, List.nil_append] at h
                simp only [Except.ok.injEq] at h
                subst h
                exact Or.inr (Or.inl ⟨pd, s1, s2, rfl, hr⟩)
        · rw [if_neg he] at h
          simp only [Except.ok.injEq] at h
          subst h
          exact Or.inl ⟨nodes, s1, rfl, hw⟩
    | none =>
      dsimp only at h
      rw [if_pos (show (([] : List Prompt).isEmpty = true) from rfl)] at h
      cases pr with
      | none =>
        simp only [Except.ok.injEq] at h
        exact Or.inr (Or.inr h.symm)
      | some pro =>
        cases pro with
        | none =>
          simp only [Except.ok.injEq] at h
          exact Or.inr (Or.inr h.symm)
        | some pd =>
          dsimp only at h
          cases hr : extract_positive_from_prompt_data pd ([] : NSet) with
          | error e => rw [hr] at h; simp at h
          | ok r2 =>
            rcases r2 with ⟨ps2, s2⟩
            rw [hr] at h
            dsimp only at h
            rw [List.nil_append] at h
            simp only [Except.ok.injEq] at h
            subst h
            exact Or.inr (Or.inl ⟨pd, [], s2, rfl, hr⟩)
  | none =>
    dsimp only at h
    rw [if_pos (show (([] : List Prompt).isEmpty = true) from rfl)] at h
    cases pr with
    | none =>
      simp only [Except.ok.injEq] at h
      exact Or.inr (Or.inr h.symm)
    | some pro =>
      cases pro with
      | none =>
        simp only [Except.ok.injEq] at h
        exact Or.inr (Or.inr h.symm)
      | some pd =>
        dsimp only at h
        cases hr : extract_positive_from_prompt_data pd ([] : NSet) with
        | error e => rw [hr] at h; simp at h
        | ok r2 =>
          rcases r2 with ⟨ps2, s2⟩
          rw [hr] at h
          dsimp only at h
          rw [List.nil_append] at h
          simp only [Except.ok.injEq] at h
          subst h
          exact Or.inr (Or.inl ⟨pd, [], s2, rfl, hr⟩)

end Comfyprompt

/-! ### Claim theorems -/

/-- Claim C6: on the parameters string "Positive prompt: foo bar" + newline +
"Steps: 20" (which is not valid JSON, so the decode oracle returns `none`),
both continuation policies — the simple one of `prompt_extractor.py` (stop
at any line containing a colon) and the strict one of
`unified_extractor_ui.py` (stop at a line containing a colon together with a
known parameter keyword such as "steps") — return exactly "foo bar". -/
theorem c6_both_policies_round_trip (jsonLoads : String → Option JVal)
    (h : jsonLoads c6Input = none) :
    PromptExtractor.extract_positive_prompt jsonLoads c6Input = some (.jstr "foo bar") ∧
    UnifiedUI.strictCore jsonLoads c6Input = some "foo bar" := by
  constructor
  · simp only [PromptExtractor.extract_positive_prompt, h]
    decide
  · simp only [UnifiedUI.strictCore, h]
    decide

theorem c6_witness :
    PromptExtractor.extract_positive_prompt (fun _ => none) c6Input = some (.jstr "foo bar") ∧
    UnifiedUI.strictCore (fun _ => none) c6Input = some "foo bar" :=
  c6_both_policies_round_trip (fun _ => none) rfl

/-- Claim C8: when the `parameters` string is not valid JSON (`json.loads`
raises, modelled by the oracle returning `none`), neither parameters
extractor surfaces an error: both proceed to line-oriented text parsing and
return exactly its result (a string or the no-prompt `none`). -/
theorem c8_json_failure_falls_through (jsonLoads : String → Option JVal) (s : String)
    (h : jsonLoads s = none) :
    PromptExtractor.extract_positive_prompt jsonLoads s =
      (PromptExtractor.simpleScan (pySplitNl s)).map .jstr ∧
    UnifiedUI.strictCore jsonLoads s = UnifiedUI.strictTextParse s := by
  constructor
  · simp only [PromptExtractor.extract_positive_prompt, h]
  · simp only [UnifiedUI.strictCore, h]

theorem c8_witness :
    PromptExtractor.extract_positive_prompt (fun _ => none) "not json at all" =
      (PromptExtractor.simpleScan (pySplitNl "not json at all")).map .jstr ∧
    UnifiedUI.strictCore (fun _ => none) "not json at all" =
      UnifiedUI.strictTextParse "not json at all" :=
  c8_json_failure_falls_through (fun _ => none) "not json at all" rfl

/-- Claim C3 (counterexample): on a parameters string that parses to the
object mapping the first-priority present key "prompt" to JSON null, the
strict extractor returns the no-prompt result `none` — not the
stringification "None" of the value that the claim ("returns the value of
the first key present ... stringified") prescribes. -/
theorem c3_counterexample :
    priorityKeys.find? (jHasKey [("prompt", JVal.jnull)]) = some "prompt" ∧
    pyStr .jnull = "None" ∧
    UnifiedUI.strictCore c3NullOracle "\x7b\"prompt\": null\x7d" = none := by
  refine ⟨by decide, by decide, ?_⟩
  decide

/-- Claim C3 (amended): for every parameters string that parses as a JSON
object in which some key of the priority order "Positive prompt",
"positive prompt", "Positive Prompt", "positive_prompt", "prompt", "Prompt"
is present, if the first present key's value is not JSON null, the strict
extractor returns that value stringified — a list value joined by newline —
and in particular yields "a" + newline + "b" for the object
mapping "prompt" to ["a", "b"].  (A JSON null value instead yields the
no-prompt result `none`, see the counterexample.) -/
theorem c3_amended_stringified (jsonLoads : String → Option JVal) (s : String)
    (kvs : List (String × JVal)) (k : String) (v : JVal)
    (hp : jsonLoads s = some (.jobj kvs))
    (hk : priorityKeys.find? (jHasKey kvs) = some k)
    (hv : jGet kvs k = some v) (hnn : v ≠ .jnull) :
    UnifiedUI.strictCore jsonLoads s =
      some (match v with
            | .jarr xs => joinSep "\n" (xs.map pyStr)
            | w => pyStr w) := by
  simp only [UnifiedUI.strictCore, hp, UnifiedUI.strictJsonBranch, hk, hv]
  cases v with
  | jnull => exact absurd rfl hnn
  | jbool b => rfl
  | jnum m => rfl
  | jstr t => rfl
  | jarr xs => rfl
  | jobj o => rfl

theorem c3_witness :
    UnifiedUI.strictCore c3ListOracle "\x7b\"prompt\": [\"a\", \"b\"]\x7d" = some "a\nb" :=
  c3_amended_stringified c3ListOracle "\x7b\"prompt\": [\"a\", \"b\"]\x7d"
    [("prompt", .jarr [.jstr "a", .jstr "b"])] "prompt" (.jarr [.jstr "a", .jstr "b"])
    (by decide) (by decide) (by decide) (by decide)

/-- Claim C10: the strict parameters extractor is total over arbitrary
metadata values under the `parameters` key: whatever the value — string,
bytes, list, dict, number or None — it is first coerced to a string (bytes
via the decode oracle, lists/dicts via the `json.dumps` oracle, strings
kept, anything else via `str()`), the string core runs on the coercion, and
the overall result is always either a string or the no-prompt `none` (the
embedding is a total function; in the source every operation is guarded by
`isinstance` checks with a final catch-all `except` returning None). -/
theorem c10_params_total_coercion (jsonLoads : String → Option JVal)
    (decodeBytes : List Nat → String) (jsonDumps : JVal → String)
    (metadata : List (String × PyV)) (v : PyV)
    (hv : mdGet metadata "parameters" = some v) :
    UnifiedUI.extract_positive_from_parameters_strict jsonLoads decodeBytes jsonDumps metadata =
      UnifiedUI.strictCore jsonLoads (coerceParameters decodeBytes jsonDumps v) ∧
    (UnifiedUI.extract_positive_from_parameters_strict jsonLoads decodeBytes jsonDumps metadata = none ∨
     ∃ t, UnifiedUI.extract_positive_from_parameters_strict jsonLoads decodeBytes jsonDumps
            metadata = some t) := by
  have h1 : UnifiedUI.extract_positive_from_parameters_strict jsonLoads decodeBytes jsonDumps
      metadata = UnifiedUI.strictCore jsonLoads (coerceParameters decodeBytes jsonDumps v) := by
    simp only [UnifiedUI.extract_positive_from_parameters_strict, hv]
    cases v <;> rfl
  refine ⟨h1, ?_⟩
  cases hres : UnifiedUI.extract_positive_from_parameters_strict jsonLoads decodeBytes jsonDumps
      metadata with
  | none => exact Or.inl rfl
  | some t => exact Or.inr ⟨t, rfl⟩

theorem c10_witness :
    UnifiedUI.extract_positive_from_parameters_strict (fun _ => none) (fun _ => "") (fun _ => "")
        c10Md =
      UnifiedUI.strictCore (fun _ => none) (coerceParameters (fun _ => "") (fun _ => "") (.pnum 7)) ∧
    (UnifiedUI.extract_positive_from_parameters_strict (fun _ => none) (fun _ => "") (fun _ => "")
        c10Md = none ∨
     ∃ t, UnifiedUI.extract_positive_from_parameters_strict (fun _ => none) (fun _ => "") (fun _ => "")
            c10Md = some t) :=
  c10_params_total_coercion (fun _ => none) (fun _ => "") (fun _ => "") c10Md (.pnum 7) rfl

/-- Claim C9: in one CLI workflow pass (the `comfyprompt_extractor.py` /
`comfy_drop_ui.py` version), at most one record whose node lacks an `id` is
ever emitted: emitting the first id-less node adds the absent-id value
(Python `None`, modelled `none`) to the shared processed set, so every later
id-less node — even a distinct eligible CLIPTextEncode node with different
text — is skipped by the already-processed check. -/
theorem c9_at_most_one_idless (nodes : List WNode) (s0 : NSet) (ps : List Prompt) (s1 : NSet)
    (h : Comfyprompt.extract_positive_from_workflow nodes s0 = .ok (ps, s1)) :
    ps.countP (fun p => decide (p.node_id = none)) ≤ 1 :=
  Comfyprompt.workflow_extract_noneId_count nodes s0 ps s1 h

theorem c9_witness :
    ([{ text := "alpha", node_id := none, node_type := "CLIPTextEncode",
        title := "Positive", source := "workflow" }] : List Prompt).countP
      (fun p => decide (p.node_id = none)) ≤ 1 :=
  c9_at_most_one_idless [c9Node1, c9Node2] [] _ [none] rfl

/-- Claim C1 (counterexample): a CLIPTextEncode node titled "Positive" whose
`widgets_values[0]` is the non-empty text "negative space art" is NOT
included by either workflow extractor — the `is_negative` test
(`prompt_text.lower().strip().startswith('negative')`) rejects it — so the
claim's "regardless of the content of that text" fails. -/
theorem c1_counterexample :
    c1Node.type = some "CLIPTextEncode" ∧ c1Node.title = some "Positive" ∧
    c1Node.widgets_values = [.jstr "negative space art"] ∧
    ("negative space art" : String) ≠ "" ∧
    (UnifiedUI.extract_positive_from_workflow [c1Node] []).1 = [] ∧
    Comfyprompt.extract_positive_from_workflow [c1Node] [] = .ok ([], []) :=
  ⟨rfl, rfl, rfl, by decide, by decide, rfl⟩

/-- Claim C1 (amended): for every workflow node list, a CLIPTextEncode node
titled "Positive" whose `widgets_values[0]` is a string that is non-empty
after stripping and whose lower-cased stripped form does not start with
"negative" is included in the returned list regardless of its position,
provided its `id` is not already in the pass's processed set and no earlier
node in the list carries the same `id` — unconditionally for the unified
extractor, and for the CLI extractor (`comfyprompt_extractor.py` lines
65-110) on every run that completes: the CLI version can instead raise
`AttributeError` when some other node carries a non-string widget value, in
which case no list is returned at all. -/
theorem c1_amended_included (pre post : List WNode) (s0 : NSet) (n : WNode)
    (t : String) (vs : List JVal)
    (hty : n.type = some "CLIPTextEncode") (hti : n.title = some "Positive")
    (hwv : n.widgets_values = .jstr t :: vs)
    (hne : pyStrip t ≠ "")
    (hns : pyStartsWith (pyStrip (pyLower t)) "negative" = false)
    (hpre : ∀ m ∈ pre, m.id ≠ n.id) (hid : n.id ∉ s0) :
    (∃ p ∈ (UnifiedUI.extract_positive_from_workflow (pre ++ n :: post) s0).1,
       p.text = t ∧ p.node_id = n.id) ∧
    (∀ ps s1,
       Comfyprompt.extract_positive_from_workflow (pre ++ n :: post) s0 = .ok (ps, s1) →
       ∃ p ∈ ps, p.text = t ∧ p.node_id = n.id) :=
  ⟨UnifiedUI.workflow_extract_includes pre post s0 n t vs hty hti hwv hne hns hpre hid,
   Comfyprompt.cli_workflow_includes pre post s0 n t vs hty hti hwv hne hns hpre hid⟩

theorem c1_witness :
    (∃ p ∈ (UnifiedUI.extract_positive_from_workflow ([] ++ c1PosNode :: []) []).1,
       p.text = "a cat" ∧ p.node_id = some (.jnum 5)) ∧
    (∃ p ∈ [({ text := "a cat", node_id := some (.jnum 5),
               node_type := "CLIPTextEncode", title := "Positive",
               source := "workflow" } : Prompt)],
       p.text = "a cat" ∧ p.node_id = some (.jnum 5)) := by
  have h := c1_amended_included [] [] [] c1PosNode "a cat" [] rfl rfl rfl (by decide)
    (by decide) (by simp) (by simp)
  exact ⟨h.1, h.2 _ _ rfl⟩

/-- Claim C2 (counterexample): classification happens BEFORE list
normalization, on the raw widget value, not after it as the claim states.
On a node titled "pos" whose first widget value is the list
["negative art"], the unified extractor emits the record with text
"negative art" (the string-based negative checks are skipped for the
non-string raw value), whereas the spec-worded normalize-first extractor
(`specNormFirstWorkflow`) rejects the node because the normalized text
starts with "negative". -/
theorem c2_counterexample :
    (UnifiedUI.extract_positive_from_workflow [c2Node] []).1.map (fun p => p.text) =
      ["negative art"] ∧
    (specNormFirstWorkflow [c2Node] []).1 = [] ∧
    normFirst (.jarr [.jstr "negative art"]) = "negative art" ∧
    pyStartsWith (pyStrip (pyLower "negative art")) "negative" = true := by
  refine ⟨by decide, by decide, by decide, by decide⟩

/-- Claim C2 (amended): the normalization mapping is as claimed — every
record emitted by the unified workflow extractor carries, as its text, the
normalization of its node's first widget value (a list becomes the
newline-join of its stringified elements, a non-string scalar its
stringification, a string is kept as is), and the extraction is total (it
never fails on a non-string first element).  However the classification
tests are applied to the RAW first value, before normalization, not after
it (see the counterexample). -/
theorem c2_amended_normalization (nodes : List WNode) (s0 : NSet) (p : Prompt)
    (hp : p ∈ (UnifiedUI.extract_positive_from_workflow nodes s0).1) :
    ∃ n ∈ nodes, isTextEncode n = true ∧
      ∃ v vs, n.widgets_values = v :: vs ∧ p.text = normFirst v := by
  obtain ⟨n, hn, hte, _, _, v, vs, hwv, htext, _⟩ :=
    UnifiedUI.workflow_extract_shape nodes s0 p hp
  exact ⟨n, hn, hte, v, vs, hwv, htext⟩

theorem c2_witness :
    ∃ n ∈ [c2Node], isTextEncode n = true ∧
      ∃ v vs, n.widgets_values = v :: vs ∧
        ({ text := "negative art", node_id := some (.jnum 1),
           node_type := "CLIPTextEncode", title := "pos",
           source := "workflow" } : Prompt).text = normFirst v :=
  c2_amended_normalization [c2Node] [] _ (by decide)

/-- Claim C4 (counterexample): the unified workflow extractor CAN emit a
record whose text is the empty string — on a node titled "pos" whose first
widget value is the empty list, the list is joined to "" after the
classification already passed (the string-based emptiness checks do not
apply to a non-string raw value). -/
theorem c4_counterexample :
    c4Node.widgets_values = [.jarr []] ∧
    (UnifiedUI.extract_positive_from_workflow [c4Node] []).1.map (fun p => p.text) = [""] :=
  ⟨rfl, by decide⟩

/-- Claim C4 (amended): every record produced by the CLI workflow extractor,
the CLI prompt-graph extractor, the unified prompt-graph extractor, or the
unified parameters pipeline has non-empty text; for the unified workflow
extractor, a record with empty text can only arise from a node whose first
widget value is a list (whose stringified join is empty — see the
counterexample); records from string-valued widgets are never empty. -/
theorem c4_amended_nonempty_text :
    (∀ (nodes : List WNode) (s0 : NSet) (ps : List Prompt) (s1 : NSet),
       Comfyprompt.extract_positive_from_workflow nodes s0 = .ok (ps, s1) →
       ∀ p ∈ ps, p.text ≠ "") ∧
    (∀ (pd : List (String × JVal)) (s0 : NSet) (ps : List Prompt) (s1 : NSet),
       Comfyprompt.extract_positive_from_prompt_data pd s0 = .ok (ps, s1) →
       ∀ p ∈ ps, p.text ≠ "") ∧
    (∀ (pd : List (String × JVal)) (s0 : NSet) (p : Prompt),
       p ∈ (UnifiedUI.extract_positive_from_prompt_data pd s0).1 → p.text ≠ "") ∧
    (∀ (jsonLoads : String → Option JVal) (decodeBytes : List Nat → String)
       (jsonDumps : JVal → String) (metadata : List (String × PyV)) (p : Prompt),
       p ∈ UnifiedUI.extract_positive_prompts_parameters jsonLoads decodeBytes jsonDumps
             metadata → p.text ≠ "") ∧
    (∀ (nodes : List WNode) (s0 : NSet) (p : Prompt),
       p ∈ (UnifiedUI.extract_positive_from_workflow nodes s0).1 → p.text = "" →
       ∃ n ∈ nodes, ∃ xs vs, n.widgets_values = .jarr xs :: vs) := by
  refine ⟨Comfyprompt.workflow_extract_text, Comfyprompt.promptData_extract_text,
    fun pd s0 p hp => (UnifiedUI.promptData_extract_source pd s0 p hp).2, ?_, ?_⟩
  · intro jsonLoads decodeBytes jsonDumps metadata p hp
    unfold UnifiedUI.extract_positive_prompts_parameters at hp
    cases hres : UnifiedUI.extract_positive_from_parameters_strict jsonLoads decodeBytes
        jsonDumps metadata with
    | none => rw [hres] at hp; simp at hp
    | some t =>
      rw [hres] at hp
      dsimp only at hp
      split at hp
      next ht =>
        simp only [List.mem_singleton] at hp
        subst hp
        simpa [bne_iff_ne] using ht
      · simp at hp
  · intro nodes s0 p hp he
    obtain ⟨n, hn, _, _, _, v, vs, hwv, _, hdisj⟩ :=
      UnifiedUI.workflow_extract_shape nodes s0 p hp
    rcases hdisj with ⟨xs, hxs⟩ | hne
    · exact ⟨n, hn, xs, vs, hxs ▸ hwv⟩
    · exact absurd he hne

theorem c4_witness :
    ({ text := "a cat", node_id := some (.jnum 5), node_type := "CLIPTextEncode",
       title := "Positive", source := "workflow" } : Prompt).text ≠ "" :=
  c4_amended_nonempty_text.1 [c1PosNode] []
    [{ text := "a cat", node_id := some (.jnum 5), node_type := "CLIPTextEncode",
       title := "Positive", source := "workflow" }] [some (.jnum 5)] rfl _ (by decide)

namespace UnifiedUI

theorem workflow_extract_source (nodes : List WNode) (s0 : NSet) (p : Prompt)
    (hp : p ∈ (extract_positive_from_workflow nodes s0).1) : p.source = "workflow" := by
  obtain ⟨n, hn, hte, hid, hsrc, _⟩ := workflow_extract_shape nodes s0 p hp
  exact hsrc

theorem pipeline_nodup (md : ComfyMeta) :
    ((extract_positive_prompts_comfyui md).map (fun p => p.node_id)).Pairwise (· ≠ ·) := by
  rcases md with ⟨wf, pr⟩
  cases wf with
  | none =>
    cases pr with
    | none => simp [extract_positive_prompts_comfyui]
    | some pro =>
      cases pro with
      | none => simp [extract_positive_prompts_comfyui]
      | some pd =>
        simp only [extract_positive_prompts_comfyui]
        rw [if_pos (show (([] : List Prompt).isEmpty = true) from rfl), List.nil_append]
        exact promptData_extract_nodup pd []
  | some wfo =>
    cases wfo with
    | none =>
      cases pr with
      | none => simp [extract_positive_prompts_comfyui]
      | some pro =>
        cases pro with
        | none => simp [extract_positive_prompts_comfyui]
        | some pd =>
          simp only [extract_positive_prompts_comfyui]
          rw [if_pos (show (([] : List Prompt).isEmpty = true) from rfl), List.nil_append]
          exact promptData_extract_nodup pd []
    | some nodes =>
      simp only [extract_positive_prompts_comfyui]
      by_cases he : (extract_positive_from_workflow nodes ([] : NSet)).1.isEmpty = true
      · rw [if_pos he]
        have hnil : (extract_positive_from_workflow nodes ([] : NSet)).1 = [] :=
          List.isEmpty_iff.mp he
        cases pr with
        | none => rw [hnil]; simp
        | some pro =>
          cases pro with
          | none => rw [hnil]; simp
          | some pd =>
            dsimp only
            rw [hnil, List.nil_append]
            exact promptData_extract_nodup pd _
      · rw [if_neg he]
        exact workflow_extract_nodup nodes []

theorem pipeline_sources (md : ComfyMeta) :
    (∀ p ∈ extract_positive_prompts_comfyui md, p.source = "workflow") ∨
    (∀ p ∈ extract_positive_prompts_comfyui md, p.source = "prompt_data") := by
  rcases md with ⟨wf, pr⟩
  cases wf with
  | none =>
    cases pr with
    | none => left; intro p hp; simp [extract_positive_prompts_comfyui] at hp
    | some pro =>
      cases pro with
      | none => left; intro p hp; simp [extract_positive_prompts_comfyui] at hp
      | some pd =>
        right
        intro p hp
        simp only [extract_positive_prompts_comfyui] at hp
        rw [if_pos (show (([] : List Prompt).isEmpty = true) from rfl), List.nil_append] at hp
        exact (promptData_extract_source pd [] p hp).1
  | some wfo =>
    cases wfo with
    | none =>
      cases pr with
      | none => left; intro p hp; simp [extract_positive_prompts_comfyui] at hp
      | some pro =>
        cases pro with
        | none => left; intro p hp; simp [extract_positive_prompts_comfyui] at hp
        | some pd =>
          right
          intro p hp
          simp only [extract_positive_prompts_comfyui] at hp
          rw [if_pos (show (([] : List Prompt).isEmpty = true) from rfl), List.nil_append] at hp
          exact (promptData_extract_source pd [] p hp).1
    | some nodes =>
      by_cases he : (extract_positive_from_workflow nodes ([] : NSet)).1.isEmpty = true
      · have hnil : (extract_positive_from_workflow nodes ([] : NSet)).1 = [] :=
          List.isEmpty_iff.mp he
        cases pr with
        | none =>
          left; intro p hp
          simp only [extract_positive_prompts_comfyui] at hp
          rw [if_pos he, hnil] at hp
          simp at hp
        | some pro =>
          cases pro with
          | none =>
            left; intro p hp
            simp only [extract_positive_prompts_comfyui] at hp
            rw [if_pos he, hnil] at hp
            simp at hp
          | some pd =>
            right; intro p hp
            simp only [extract_positive_prompts_comfyui] at hp
            rw [if_pos he] at hp
            rw [hnil, List.nil_append] at hp
            exact (promptData_extract_source pd _ p hp).1
      · left; intro p hp
        simp only [extract_positive_prompts_comfyui] at hp
        rw [if_neg he] at hp
        exact workflow_extract_source nodes [] p hp

end UnifiedUI

/-- Claim C5: in both ComfyUI pipelines — the unified
`extract_positive_prompts_comfyui` and the CLI
`extract_positive_prompts_only` (on every run of the latter that completes,
i.e. returns a record list at all) — the node identifiers of the emitted
records are pairwise distinct, and no record from the `workflow` pass is
ever combined with one from the `prompt` pass: the prompt-graph extractor
only runs when the workflow pass produced zero records, and both share one
processed-node set. -/
theorem c5_unique_ids_and_gating :
    (∀ md : ComfyMeta,
       ((UnifiedUI.extract_positive_prompts_comfyui md).map
           (fun p => p.node_id)).Pairwise (· ≠ ·) ∧
       ¬(∃ p ∈ UnifiedUI.extract_positive_prompts_comfyui md, p.source = "workflow" ∧
         ∃ q ∈ UnifiedUI.extract_positive_prompts_comfyui md, q.source = "prompt_data")) ∧
    (∀ (md : ComfyMeta) (ps : List Prompt),
       Comfyprompt.extract_positive_prompts_only md = .ok ps →
       (ps.map (fun p => p.node_id)).Pairwise (· ≠ ·) ∧
       ¬(∃ p ∈ ps, p.source = "workflow" ∧ ∃ q ∈ ps, q.source = "prompt_data")) := by
  constructor
  · intro md
    refine ⟨UnifiedUI.pipeline_nodup md, ?_⟩
    rintro ⟨p, hp, hps, q, hq, hqs⟩
    rcases UnifiedUI.pipeline_sources md with h | h
    · have h2 := h q hq
      rw [hqs] at h2
      exact absurd h2 (by decide)
    · have h2 := h p hp
      rw [hps] at h2
      exact absurd h2 (by decide)
  · intro md ps h
    rcases Comfyprompt.pipeline_ok_shape md ps h with
      ⟨nodes, s1, _, hw⟩ | ⟨pd, s1, s2, _, hpd⟩ | rfl
    · refine ⟨Comfyprompt.cli_workflow_nodup nodes [] ps s1 hw, ?_⟩
      rintro ⟨p, hp, hps, q, hq, hqs⟩
      have h2 := Comfyprompt.cli_workflow_sources nodes [] ps s1 hw q hq
      rw [hqs] at h2
      exact absurd h2 (by decide)
    · refine ⟨Comfyprompt.cli_promptData_nodup pd s1 ps s2 hpd, ?_⟩
      rintro ⟨p, hp, hps, q, hq, hqs⟩
      have h2 := Comfyprompt.cli_promptData_sources pd s1 ps s2 hpd p hp
      rw [hps] at h2
      exact absurd h2 (by decide)
    · exact ⟨by simp, by simp⟩

theorem c5_witness :
    (([({ text := "a cat", node_id := some (.jnum 5), node_type := "CLIPTextEncode",
          title := "Positive", source := "workflow" } : Prompt)]).map
        (fun p => p.node_id)).Pairwise (· ≠ ·) ∧
    ¬(∃ p ∈ [({ text := "a cat", node_id := some (.jnum 5),
                node_type := "CLIPTextEncode", title := "Positive",
                source := "workflow" } : Prompt)], p.source = "workflow" ∧
      ∃ q ∈ [({ text := "a cat", node_id := some (.jnum 5),
                node_type := "CLIPTextEncode", title := "Positive",
                source := "workflow" } : Prompt)], q.source = "prompt_data") :=
  c5_unique_ids_and_gating.2
    { workflow := some (some [c1PosNode]), prompt := some (some c7Pd) } _ rfl

/-- Claim C7: over a prompt-graph node map with pairwise-distinct keys and a
fresh processed set, the unified prompt-graph extractor emits a record for
exactly those (key, value) pairs accepted by `pgEmit`: the value is an
object with `class_type` "CLIPTextEncode" whose selected text
(`inputs["text"]` if present, else `inputs["prompt"]`) exists and, after
normalization, is non-empty when stripped and has no "negative" within its
first 50 lower-cased characters; the emitted record carries the normalized
text, node id = key and title = "Node " + key; there is no positivity
requirement beyond the negative-window test. -/
theorem c7_promptgraph_exact (pd : List (String × JVal))
    (hk : (pd.map Prod.fst).Nodup) :
    (UnifiedUI.extract_positive_from_prompt_data pd []).1 =
      pd.filterMap (fun kv => pgEmit kv.1 kv.2) :=
  UnifiedUI.promptData_extract_filterMap pd [] (fun k v _ => by simp) hk

theorem c7_witness :
    (UnifiedUI.extract_positive_from_prompt_data c7Pd []).1 =
      c7Pd.filterMap (fun kv => pgEmit kv.1 kv.2) ∧
    (UnifiedUI.extract_positive_from_prompt_data c7Pd []).1.map (fun p => (p.text, p.title)) =
      [("hello world", "Node 3")] :=
  ⟨c7_promptgraph_exact c7Pd (by decide), by decide⟩

